import Mathlib

/-!
# The value bridge and the external-reference table of `ssvm/value.go`

A shallow embedding of the Go binding's value conversions (`toSSVMValue`,
`fromSSVMValue`, their batch forms `toSSVMValueSlide` and `fromSSVMValueSlide`,
`NewV128`, `V128.GetVal`) and of its table of external references
(`externRefManager`), followed by theorems about them.

Conventions of the embedding.

* The package-level variable `externRefMgr` is threaded explicitly: every
  function that touches it takes the table and, when it writes, returns the
  new table.  Calls are taken one at a time; the mutex appears only in the
  forms of the reads that thread the table through every statement.
* Go's machine integers are `Nat`/`Int` with every conversion and every
  overflow written out (`toUnsigned`, `toSigned`).  The width of Go's `int`
  and `uint` is a parameter `sz`, the value of `unsafe.Sizeof` in bytes
  (4 or 8).
* A Go `panic` is `Except.error` with the panic message.
* `float32`/`float64` values are carried as their IEEE-754 bit patterns.
-/

set_option autoImplicit false

namespace ssvm

/-! ## Machine integers -/

/-- Conversion to an unsigned integer type of `bits` bits: the low `bits`
bits of the two's-complement representation. -/
def toUnsigned (bits : Nat) (n : Int) : Nat :=
  (n % (2 : Int) ^ bits).toNat

/-- Conversion to a signed integer type of `bits` bits: the low `bits` bits
read as a two's-complement number. -/
def toSigned (bits : Nat) (n : Int) : Int :=
  if n % (2 : Int) ^ bits < (2 : Int) ^ (bits - 1) then n % (2 : Int) ^ bits
  else n % (2 : Int) ^ bits - (2 : Int) ^ bits

/-! ## The C side: `SSVM_Value` and its accessors -/

/-- Modelled from the spec: the numeric code of `SSVM_ValType_I32`, declared in
the C header `ssvm.h`, which is not part of the source tree.  The seven tags
are distinct constants; the values are the WebAssembly type codes. -/
def SSVM_ValType_I32 : Nat := 0x7F

/-- Modelled from the spec: the numeric code of `SSVM_ValType_I64` (in `ssvm.h`). -/
def SSVM_ValType_I64 : Nat := 0x7E

/-- Modelled from the spec: the numeric code of `SSVM_ValType_F32` (in `ssvm.h`). -/
def SSVM_ValType_F32 : Nat := 0x7D

/-- Modelled from the spec: the numeric code of `SSVM_ValType_F64` (in `ssvm.h`). -/
def SSVM_ValType_F64 : Nat := 0x7C

/-- Modelled from the spec: the numeric code of `SSVM_ValType_V128` (in `ssvm.h`). -/
def SSVM_ValType_V128 : Nat := 0x7B

/-- Modelled from the spec: the numeric code of `SSVM_ValType_FuncRef` (in `ssvm.h`). -/
def SSVM_ValType_FuncRef : Nat := 0x70

/-- Modelled from the spec: the numeric code of `SSVM_ValType_ExternRef` (in `ssvm.h`). -/
def SSVM_ValType_ExternRef : Nat := 0x6F

/-- Modelled from the spec: the C struct `SSVM_Value` of `ssvm.h` (not part of
the source tree): a fixed-size 128-bit payload `Value` and a type field, which
the Go code writes as `val.Type`.  The field is called `Ty` here because
`Type` is reserved. -/
structure SSVM_Value where
  Value : Nat
  Ty : Nat
  deriving DecidableEq, Repr

/-- Modelled from the spec: `SSVM_ValueGenI32` of the C library stores the 32
bits of its argument in the payload ("map directly to their matching tag"). -/
def SSVM_ValueGenI32 (v : Int) : SSVM_Value :=
  { Value := toUnsigned 32 v, Ty := SSVM_ValType_I32 }

/-- Modelled from the spec: `SSVM_ValueGenI64` of the C library stores the 64
bits of its argument in the payload. -/
def SSVM_ValueGenI64 (v : Int) : SSVM_Value :=
  { Value := toUnsigned 64 v, Ty := SSVM_ValType_I64 }

/-- Modelled from the spec: `SSVM_ValueGenF32` of the C library stores the 32
bits of the float in the payload. -/
def SSVM_ValueGenF32 (bits : Nat) : SSVM_Value :=
  { Value := bits % 2 ^ 32, Ty := SSVM_ValType_F32 }

/-- Modelled from the spec: `SSVM_ValueGenF64` of the C library stores the 64
bits of the double in the payload. -/
def SSVM_ValueGenF64 (bits : Nat) : SSVM_Value :=
  { Value := bits % 2 ^ 64, Ty := SSVM_ValType_F64 }

/-- Modelled from the spec: `SSVM_ValueGenV128` of the C library stores the
128 bits of its `__int128` argument in the payload. -/
def SSVM_ValueGenV128 (v : Int) : SSVM_Value :=
  { Value := toUnsigned 128 v, Ty := SSVM_ValType_V128 }

/-- Modelled from the spec: `SSVM_ValueGetI32` of the C library "extracts the
scalar directly": the low 32 bits of the payload as an `int32_t`. -/
def SSVM_ValueGetI32 (v : SSVM_Value) : Int :=
  toSigned 32 (v.Value : Int)

/-- Modelled from the spec: `SSVM_ValueGetI64` of the C library: the low 64
bits of the payload as an `int64_t`. -/
def SSVM_ValueGetI64 (v : SSVM_Value) : Int :=
  toSigned 64 (v.Value : Int)

/-- Modelled from the spec: `SSVM_ValueGetF32` of the C library: the low 32
bits of the payload as a float. -/
def SSVM_ValueGetF32 (v : SSVM_Value) : Nat :=
  v.Value % 2 ^ 32

/-- Modelled from the spec: `SSVM_ValueGetF64` of the C library: the low 64
bits of the payload as a double. -/
def SSVM_ValueGetF64 (v : SSVM_Value) : Nat :=
  v.Value % 2 ^ 64

/-- Modelled from the spec: `SSVM_ValueGetV128` of the C library: the 128 bits
of the payload as an `__int128`. -/
def SSVM_ValueGetV128 (v : SSVM_Value) : Int :=
  toSigned 128 (v.Value : Int)

/-! ## Go values -/

/-- The Go struct `FuncRef`. -/
structure FuncRef where
  _inner : SSVM_Value
  deriving DecidableEq, Repr

/-- The Go struct `ExternRef`. -/
structure ExternRef where
  _inner : SSVM_Value
  _valid : Bool
  deriving DecidableEq, Repr

/-- The Go struct `V128`. -/
structure V128 where
  _inner : SSVM_Value
  deriving DecidableEq, Repr

/-- The dynamic values an `interface{}` holds, as far as `toSSVMValue`
distinguishes them: the kinds of its type switch, and `nil`, `bool`, `string`
and `other` (named by its Go type) for what falls to `default`. -/
inductive GoValue where
  | nil
  | bool (b : Bool)
  | string (s : String)
  | other (typeName : String)
  | funcRef (r : FuncRef)
  | externRef (r : ExternRef)
  | v128 (v : V128)
  | int (n : Int)
  | int32 (n : Int)
  | int64 (n : Int)
  | uint (n : Nat)
  | uint32 (n : Nat)
  | uint64 (n : Nat)
  | float32 (bits : Nat)
  | float64 (bits : Nat)
  deriving DecidableEq, Repr

/-! ## The table of external references -/

/-- The Go struct `externRefManager` without its mutex: `idx` is the next fresh
index, `gc` the slice of recycled indices, `ref` the map from index to
object (`none` where the map has no key). -/
structure externRefManager where
  idx : Nat
  gc : List Nat
  ref : Nat → Option GoValue

/-- The map assignment `m[k] = v`. -/
def mapSet (m : Nat → Option GoValue) (k : Nat) (v : GoValue) : Nat → Option GoValue :=
  fun j => if j = k then some v else m j

/-- The builtin `delete(m, k)`. -/
def mapDelete (m : Nat → Option GoValue) (k : Nat) : Nat → Option GoValue :=
  fun j => if j = k then none else m j

/-- The method `externRefManager.add`: returns `realidx` and the table after the
call.  `self.gc[0:]` is `self.gc.drop 0`; `self.idx++` wraps at the width of
`uint`. -/
def externRefManager.add (sz : Nat) (self : externRefManager) (ptr : GoValue) :
    Nat × externRefManager :=
  if h : self.gc.length > 0 then
    let realidx := self.gc.get ⟨self.gc.length - 1, Nat.sub_lt h Nat.one_pos⟩
    let self1 : externRefManager := { self with gc := self.gc.drop 0 }
    (realidx, { self1 with ref := mapSet self1.ref realidx ptr })
  else
    let realidx := self.idx
    let self1 : externRefManager := { self with idx := (self.idx + 1) % 2 ^ (8 * sz) }
    (realidx, { self1 with ref := mapSet self1.ref realidx ptr })

/-- The method `externRefManager.get`: `self.ref[i]`, which is `nil` for a key the
map does not have. -/
def externRefManager.get (self : externRefManager) (i : Nat) : GoValue :=
  match self.ref i with
  | some v => v
  | none => GoValue.nil

/-- The method `externRefManager.del`. -/
def externRefManager.del (self : externRefManager) (i : Nat) : externRefManager :=
  { self with ref := mapDelete self.ref i, gc := self.gc ++ [i] }

/-- The package variable `externRefMgr` as initialised. -/
def externRefMgr : externRefManager :=
  { idx := 1, gc := [], ref := fun _ => none }

/-- The fields of a table hold values of type `uint`. -/
def externRefManager.inRange (sz : Nat) (self : externRefManager) : Prop :=
  self.idx < 2 ^ (8 * sz) ∧ ∀ g ∈ self.gc, g < 2 ^ (8 * sz)

/-! ## Encode and decode -/

/-- The function `toSSVMValue`. -/
def toSSVMValue (sz : Nat) (value : GoValue) : Except String SSVM_Value :=
  match value with
  | .funcRef r => .ok r._inner
  | .externRef r =>
    if !r._valid then .error "External reference is released"
    else .ok r._inner
  | .v128 v => .ok v._inner
  | .int n =>
    if sz = 4 then .ok (SSVM_ValueGenI32 (toSigned 32 n))
    else .ok (SSVM_ValueGenI64 (toSigned 64 n))
  | .int32 n => .ok (SSVM_ValueGenI32 (toSigned 32 n))
  | .int64 n => .ok (SSVM_ValueGenI64 (toSigned 64 n))
  | .uint n =>
    if sz = 4 then .ok (SSVM_ValueGenI32 (toSigned 32 (toSigned 32 n)))
    else .ok (SSVM_ValueGenI64 (toSigned 64 (toSigned 64 n)))
  | .uint32 n => .ok (SSVM_ValueGenI32 (toSigned 32 (toSigned 32 n)))
  | .uint64 n => .ok (SSVM_ValueGenI64 (toSigned 64 (toSigned 64 n)))
  | .float32 b => .ok (SSVM_ValueGenF32 b)
  | .float64 b => .ok (SSVM_ValueGenF64 b)
  | _ => .error "Wrong argument of toSSVMValue()"

/-- The function `fromSSVMValue`, reading the table `mgr` in its `ExternRef`
case. -/
def fromSSVMValue (sz : Nat) (mgr : externRefManager) (value : SSVM_Value)
    (origtype : Nat) : Except String GoValue :=
  if origtype = SSVM_ValType_I32 then
    .ok (.int32 (toSigned 32 (SSVM_ValueGetI32 value)))
  else if origtype = SSVM_ValType_I64 then
    .ok (.int64 (toSigned 64 (SSVM_ValueGetI64 value)))
  else if origtype = SSVM_ValType_F32 then
    .ok (.float32 (SSVM_ValueGetF32 value))
  else if origtype = SSVM_ValType_F64 then
    .ok (.float64 (SSVM_ValueGetF64 value))
  else if origtype = SSVM_ValType_V128 then
    .ok (.v128 { _inner := value })
  else if origtype = SSVM_ValType_FuncRef then
    .ok (.funcRef { _inner := value })
  else if origtype = SSVM_ValType_ExternRef then
    let idx := toUnsigned (8 * sz) (SSVM_ValueGetI64 value)
    match mgr.ref idx with
    | some _ => .ok (.externRef { _inner := value, _valid := true })
    | none => .ok (.externRef { _inner := value, _valid := false })
  else
    .error "Wrong argument of fromSSVMValue()"

/-- The type assertion `x.(int64)`, which panics on any other dynamic type. -/
def assertInt64 : GoValue → Except String Int
  | .int64 n => .ok n
  | _ => .error "interface conversion: interface {} is not int64"

/-! ## External references -/

/-- The function `NewExternRef`: the reference it returns and the table after
the call. -/
def NewExternRef (sz : Nat) (mgr : externRefManager) (ptr : GoValue) :
    Except String (ExternRef × externRefManager) :=
  let r := mgr.add sz ptr
  let idx : Nat := toUnsigned 64 (r.1 : Int)
  match toSSVMValue sz (.uint64 idx) with
  | .ok val =>
    .ok ({ _inner := { val with Ty := SSVM_ValType_ExternRef }, _valid := true }, r.2)
  | .error e => .error e

/-- The method `ExternRef.Release`.  Its receiver is a value, so the assignment
`self._valid = false` writes to the callee's copy: the caller's reference is
not changed, and the only effect that outlives the call is on the table, which
is what is returned. -/
def ExternRef.Release (sz : Nat) (self : ExternRef) (mgr : externRefManager) :
    Except String externRefManager :=
  let self1 : ExternRef := { self with _valid := false }
  match (fromSSVMValue sz mgr self1._inner SSVM_ValType_I64).bind assertInt64 with
  | .ok n => .ok (mgr.del (toUnsigned (8 * sz) n))
  | .error e => .error e

/-- The method `ExternRef.GetRef`. -/
def ExternRef.GetRef (sz : Nat) (self : ExternRef) (mgr : externRefManager) :
    Except String GoValue :=
  if self._valid then
    match (fromSSVMValue sz mgr self._inner SSVM_ValType_I64).bind assertInt64 with
    | .ok n => .ok (mgr.get (toUnsigned (8 * sz) n))
    | .error e => .error e
  else .ok GoValue.nil

/-! ## 128-bit vectors -/

/-- Modelled from the spec: the standard-library call
`binary.LittleEndian.PutUint64(b, v)`, which is not part of the source tree
("little-endian byte order within each 8-byte half"): the eight bytes it
writes to `b[0]`, ..., `b[7]`, namely `byte(v)`, `byte(v >> 8)`, ...,
`byte(v >> 56)`. -/
def LittleEndian.PutUint64 (v : Nat) : List Nat :=
  [v % 256, v / 2 ^ 8 % 256, v / 2 ^ 16 % 256, v / 2 ^ 24 % 256,
   v / 2 ^ 32 % 256, v / 2 ^ 40 % 256, v / 2 ^ 48 % 256, v / 2 ^ 56 % 256]

/-- Modelled from the spec: the standard-library call
`binary.LittleEndian.Uint64(b)`, which is not part of the source tree:
`b[0] | b[1]<<8 | ... | b[7]<<56`; the bytes being below 256, the bitwise
or of the shifted bytes is their sum. -/
def LittleEndian.Uint64 (b : List Nat) : Nat :=
  b.getD 0 0 + b.getD 1 0 * 2 ^ 8 + b.getD 2 0 * 2 ^ 16 + b.getD 3 0 * 2 ^ 24
    + b.getD 4 0 * 2 ^ 32 + b.getD 5 0 * 2 ^ 40 + b.getD 6 0 * 2 ^ 48 + b.getD 7 0 * 2 ^ 56

/-- A list of bytes read as a little-endian unsigned integer. -/
def leNat : List Nat → Nat
  | [] => 0
  | b :: rest => b + 256 * leNat rest

/-- The `__int128` whose sixteen bytes of memory are `buf` (the slice header
built in `NewV128` makes `buf` that memory); the host is little-endian. -/
def int128OfBytes (buf : List Nat) : Int :=
  toSigned 128 (leNat (buf.take 16) : Int)

/-- The sixteen bytes of memory of an `__int128` (the slice header built in
`GetVal` makes `buf` that memory); the host is little-endian. -/
def bytesOfInt128 (cval : Int) : List Nat :=
  (List.range 16).map (fun i => toUnsigned 128 cval / 256 ^ i % 256)

/-- The contents of `buf` in `NewV128` after the two `PutUint64` calls: `cval`
starts as zero, `low` is written to `buf[:8]` and `high` to `buf[8:]`. -/
def NewV128.buf (high low : Nat) : List Nat :=
  let buf0 : List Nat := List.replicate 16 0
  let buf1 := LittleEndian.PutUint64 low ++ buf0.drop 8
  buf1.take 8 ++ LittleEndian.PutUint64 high ++ buf1.drop 16

/-- The function `NewV128`. -/
def NewV128 (high low : Nat) : V128 :=
  { _inner := SSVM_ValueGenV128 (int128OfBytes (NewV128.buf high low)) }

/-- The method `V128.GetVal`. -/
def V128.GetVal (self : V128) : Nat × Nat :=
  let cval := SSVM_ValueGetV128 self._inner
  let buf := bytesOfInt128 cval
  (LittleEndian.Uint64 (buf.drop 8), LittleEndian.Uint64 (buf.take 8))

/-! ## Sequences of table calls -/

/-- A call of one of the three methods of the table. -/
inductive Call where
  | add (ptr : GoValue)
  | get (i : Nat)
  | del (i : Nat)

/-- One call on the table; beside the table, the list of the handles that `add`
returned and that were not passed to `del` since (newest first). -/
def callStep (sz : Nat) (s : externRefManager × List Nat) : Call → externRefManager × List Nat
  | .add ptr => ((s.1.add sz ptr).2, (s.1.add sz ptr).1 :: s.2)
  | .get _ => s
  | .del i => (s.1.del i, s.2.filter (fun h => h ≠ i))

/-- A sequence of calls, from left to right. -/
def runCalls (sz : Nat) (s : externRefManager × List Nat) (calls : List Call) :
    externRefManager × List Nat :=
  calls.foldl (callStep sz) s

/-- The handles returned by the `add` calls of a sequence run on the table
`mgr`, in call order. -/
def addResults (sz : Nat) (mgr : externRefManager) : List Call → List Nat
  | [] => []
  | .add ptr :: rest => (mgr.add sz ptr).1 :: addResults sz (mgr.add sz ptr).2 rest
  | .get _ :: rest => addResults sz mgr rest
  | .del i :: rest => addResults sz (mgr.del i) rest

/-- The table after a sequence of calls run on the table `mgr`. -/
def tableAfter (sz : Nat) (mgr : externRefManager) (calls : List Call) : externRefManager :=
  (runCalls sz (mgr, []) calls).1

/-! ## Batch conversions -/

/-- The function `toSSVMValueSlide`: `cvals[i] = toSSVMValue(val)` for each value
in turn; the first panic ends the call. -/
def toSSVMValueSlide (sz : Nat) : List GoValue → Except String (List SSVM_Value)
  | [] => .ok []
  | val :: rest =>
    match toSSVMValue sz val with
    | .ok cval =>
      match toSSVMValueSlide sz rest with
      | .ok cvals => .ok (cval :: cvals)
      | .error e => .error e
    | .error e => .error e

/-- The loop `for i, cval := range cvals { vals[i] = fromSSVMValue(cval, types[i]) }`
of `fromSSVMValueSlide`, from index `i` on, `cvals` being the values still to
visit and `vals` the slice written so far.  Indexing `types` at or beyond its
length is a run-time panic. -/
def fromSSVMValueSlide.loop (sz : Nat) (mgr : externRefManager) (types : List Nat) :
    Nat → List SSVM_Value → List GoValue → Except String (List GoValue)
  | _, [], vals => .ok vals
  | i, cval :: rest, vals =>
    match types.get? i with
    | none => .error "runtime error: index out of range"
    | some t =>
      match fromSSVMValue sz mgr cval t with
      | .ok v => fromSSVMValueSlide.loop sz mgr types (i + 1) rest (vals.set i v)
      | .error e => .error e

/-- The function `fromSSVMValueSlide`: `make([]interface{}, len(types))` is a
slice of `len(types)` `nil` values. -/
def fromSSVMValueSlide (sz : Nat) (mgr : externRefManager) (cvals : List SSVM_Value)
    (types : List Nat) : Except String (List GoValue) :=
  if types.length > 0 then
    fromSSVMValueSlide.loop sz mgr types 0 cvals (List.replicate types.length GoValue.nil)
  else .ok []

/-! ## The size of the mapping -/

/-- The keys of the mapping fit in a Go map: `len` of a map is an `int`, so a map
holds fewer than `2^(8*sz-1)` keys.  Stated on the function that stands for the
map: its keys all lie in one list of fewer than `2^(8*sz-1)` entries. -/
def externRefManager.lenFits (sz : Nat) (self : externRefManager) : Prop :=
  ∃ keys : List Nat,
    (∀ k, (self.ref k).isSome = true → k ∈ keys) ∧ keys.length < 2 ^ (8 * sz - 1)

/-! ## Reads, with the table threaded through every statement -/

/-- The struct `externRefManager` with its mutex: `mu` is true while `self.mu` is
held, `tab` holds the other three fields. -/
structure lockedManager where
  mu : Bool
  tab : externRefManager

/-- Modelled from the spec: `sync.Mutex.Lock` of the standard library, outside
the source tree ("a single mutual-exclusion lock").  With calls taken one at a
time, locking a mutex that is held never returns. -/
def Mutex.Lock (s : lockedManager) : Except String lockedManager :=
  if s.mu then .error "fatal error: all goroutines are asleep - deadlock!"
  else .ok { s with mu := true }

/-- Modelled from the spec: `sync.Mutex.Unlock` of the standard library, outside
the source tree; unlocking a mutex that is not held is a fatal error. -/
def Mutex.Unlock (s : lockedManager) : Except String lockedManager :=
  if s.mu then .ok { s with mu := false }
  else .error "fatal error: sync: unlock of unlocked mutex"

/-- The method `externRefManager.get`, statement by statement on the struct with
its mutex: `self.mu.Lock()`, the read `self.ref[i]`, and the deferred
`self.mu.Unlock()`; the value returned and the struct after the call. -/
def externRefManager.getSt (s : lockedManager) (i : Nat) :
    Except String (GoValue × lockedManager) :=
  match Mutex.Lock s with
  | .error e => .error e
  | .ok s1 =>
    let v : GoValue :=
      match s1.tab.ref i with
      | some x => x
      | none => GoValue.nil
    match Mutex.Unlock s1 with
    | .error e => .error e
    | .ok s2 => .ok (v, s2)

/-- The function `fromSSVMValue`, statement by statement on the package variable
`externRefMgr` with its mutex (which it does not take): every case returns
without an assignment; the `ExternRef` case reads `externRefMgr.ref[idx]`. -/
def fromSSVMValueSt (sz : Nat) (s : lockedManager) (value : SSVM_Value) (origtype : Nat) :
    Except String (GoValue × lockedManager) :=
  if origtype = SSVM_ValType_I32 then
    .ok (.int32 (toSigned 32 (SSVM_ValueGetI32 value)), s)
  else if origtype = SSVM_ValType_I64 then
    .ok (.int64 (toSigned 64 (SSVM_ValueGetI64 value)), s)
  else if origtype = SSVM_ValType_F32 then
    .ok (.float32 (SSVM_ValueGetF32 value), s)
  else if origtype = SSVM_ValType_F64 then
    .ok (.float64 (SSVM_ValueGetF64 value), s)
  else if origtype = SSVM_ValType_V128 then
    .ok (.v128 { _inner := value }, s)
  else if origtype = SSVM_ValType_FuncRef then
    .ok (.funcRef { _inner := value }, s)
  else if origtype = SSVM_ValType_ExternRef then
    let idx := toUnsigned (8 * sz) (SSVM_ValueGetI64 value)
    match s.tab.ref idx with
    | some _ => .ok (.externRef { _inner := value, _valid := true }, s)
    | none => .ok (.externRef { _inner := value, _valid := false }, s)
  else
    .error "Wrong argument of fromSSVMValue()"

/-- The method `ExternRef.GetRef`, statement by statement: the call of
`fromSSVMValue`, the type assertion, and the call of `externRefMgr.get` on the
struct that the decode left. -/
def ExternRef.GetRefSt (sz : Nat) (self : ExternRef) (s : lockedManager) :
    Except String (GoValue × lockedManager) :=
  if self._valid then
    match fromSSVMValueSt sz s self._inner SSVM_ValType_I64 with
    | .error e => .error e
    | .ok r =>
      match assertInt64 r.1 with
      | .error e => .error e
      | .ok n => externRefManager.getSt r.2 (toUnsigned (8 * sz) n)
  else .ok (GoValue.nil, s)

/-! ## Lemmas on machine integers -/

theorem toSigned_emod (bits : Nat) (n : Int) :
    toSigned bits n % (2 : Int) ^ bits = n % (2 : Int) ^ bits := by
  unfold toSigned
  split
  · exact Int.emod_emod_of_dvd n (dvd_refl _)
  · rw [Int.sub_emod, Int.emod_self, sub_zero, Int.emod_emod_of_dvd _ (dvd_refl _),
      Int.emod_emod_of_dvd n (dvd_refl _)]

theorem toUnsigned_toSigned (m bits : Nat) (n : Int) (hm : m ≤ bits) :
    toUnsigned m (toSigned bits n) = toUnsigned m n := by
  have hdvd : ((2 : Int) ^ m) ∣ (2 : Int) ^ bits := pow_dvd_pow 2 hm
  unfold toUnsigned
  rw [← Int.emod_emod_of_dvd (toSigned bits n) hdvd, toSigned_emod,
    Int.emod_emod_of_dvd n hdvd]

theorem toSigned_toSigned (bits : Nat) (n : Int) :
    toSigned bits (toSigned bits n) = toSigned bits n := by
  have h := toSigned_emod bits n
  simp only [toSigned] at h ⊢
  simp only [h]

theorem toUnsigned_of_lt (bits n : Nat) (h : n < 2 ^ bits) :
    toUnsigned bits (n : Int) = n := by
  unfold toUnsigned
  have h1 : ((n : Int) % (2 : Int) ^ bits) = n := by
    apply Int.emod_eq_of_lt (Int.natCast_nonneg n)
    exact_mod_cast h
  rw [h1]; simp

theorem toSigned_toUnsigned (bits : Nat) (n : Int) :
    toSigned bits (toUnsigned bits n : Int) = toSigned bits n := by
  have hpos : (0 : Int) < (2 : Int) ^ bits := by positivity
  have h1 : ((toUnsigned bits n : Nat) : Int) = n % (2 : Int) ^ bits := by
    unfold toUnsigned
    exact Int.toNat_of_nonneg (Int.emod_nonneg n (ne_of_gt hpos))
  unfold toSigned
  rw [h1, Int.emod_emod_of_dvd n (dvd_refl _)]

theorem toSigned_of_range (bits : Nat) (n : Int) (hb : 0 < bits)
    (hlo : -(2 : Int) ^ (bits - 1) ≤ n) (hhi : n < (2 : Int) ^ (bits - 1)) :
    toSigned bits n = n := by
  obtain ⟨k, rfl⟩ : ∃ k, bits = k + 1 := ⟨bits - 1, by omega⟩
  simp only [Nat.add_sub_cancel] at hlo hhi
  have hpow : (2 : Int) ^ (k + 1) = 2 * (2 : Int) ^ k := by ring
  have hpos : (0 : Int) < (2 : Int) ^ k := by positivity
  unfold toSigned
  simp only [Nat.add_sub_cancel, hpow]
  by_cases hn : 0 ≤ n
  · have : n % (2 * (2 : Int) ^ k) = n := Int.emod_eq_of_lt hn (by linarith)
    rw [this, if_pos hhi]
  · have hn1 : n < 0 := by omega
    have : n % (2 * (2 : Int) ^ k) = n + 2 * (2 : Int) ^ k := by
      rw [← Int.add_mul_emod_self_left n (2 * 2 ^ k) 1]
      rw [mul_one]
      exact Int.emod_eq_of_lt (by linarith) (by linarith)
    rw [this, if_neg (by linarith)]
    ring

/-! ## Lemmas on the table -/

theorem add_fst_of_gc_append (sz : Nat) (t : externRefManager) (g : List Nat) (h : Nat)
    (ptr : GoValue) (hg : t.gc = g ++ [h]) : (t.add sz ptr).1 = h := by
  have hlen : t.gc.length > 0 := by simp [hg]
  simp only [externRefManager.add, hlen, dite_true]
  simp [hg]

theorem add_ref_self (sz : Nat) (t : externRefManager) (ptr : GoValue) :
    (t.add sz ptr).2.ref (t.add sz ptr).1 = some ptr := by
  unfold externRefManager.add
  split <;> simp [mapSet]

theorem add_fst_lt (sz : Nat) (t : externRefManager) (ptr : GoValue)
    (ht : t.inRange sz) : (t.add sz ptr).1 < 2 ^ (8 * sz) := by
  unfold externRefManager.add
  split
  · exact ht.2 _ (List.get_mem _ _ _)
  · exact ht.1

theorem del_ref_self (t : externRefManager) (i : Nat) : (t.del i).ref i = none := by
  simp [externRefManager.del, mapDelete]

theorem del_ref_of_absent (t : externRefManager) (i : Nat) (h : t.ref i = none) :
    (t.del i).ref = t.ref := by
  funext j
  by_cases hj : j = i
  · subst hj; simp [externRefManager.del, mapDelete, h]
  · simp [externRefManager.del, mapDelete, hj]

/-! ## Handles: uniqueness, the reserved handle, recycling -/

/-- C1: live handles are not kept distinct.  From the initial table, after
`add(a)` (which returns 1) and `del(1)`, the next two `add` calls both return
1: neither of the two handles was released since it was returned, the list of
live handles has a duplicate, and the object registered by the first of the
two calls has been overwritten by the second. -/
theorem add_reissues_live_handle :
    addResults 8 externRefMgr
        [Call.add (.string "a"), Call.del 1, Call.add (.string "b"), Call.add (.string "c")]
      = [1, 1, 1]
    ∧ (runCalls 8 (externRefMgr, [])
        [Call.add (.string "a"), Call.del 1, Call.add (.string "b"), Call.add (.string "c")]).2
      = [1, 1]
    ∧ ¬ (runCalls 8 (externRefMgr, [])
        [Call.add (.string "a"), Call.del 1, Call.add (.string "b"), Call.add (.string "c")]).2.Nodup
    ∧ (runCalls 8 (externRefMgr, [])
        [Call.add (.string "a"), Call.del 1, Call.add (.string "b"), Call.add (.string "c")]).1.get 1
      = GoValue.string "c" := by
  refine ⟨by decide, by decide, by decide, by decide⟩

/-- C2: handle 0 is not kept reserved.  Decoding the payload 0 with the
`ExternRef` tag on the initial table gives a reference with validity false;
its `Release` calls `del(0)`, and the next `add` returns 0 and makes 0 a key of
the mapping.  The same holds for `del(0)` called directly. -/
theorem add_returns_zero_after_del_zero (p : GoValue) :
    fromSSVMValue 8 externRefMgr { Value := 0, Ty := SSVM_ValType_ExternRef }
        SSVM_ValType_ExternRef
      = .ok (.externRef { _inner := { Value := 0, Ty := SSVM_ValType_ExternRef },
                          _valid := false })
    ∧ ExternRef.Release 8
        { _inner := { Value := 0, Ty := SSVM_ValType_ExternRef }, _valid := false }
        externRefMgr
      = .ok (externRefMgr.del 0)
    ∧ ((externRefMgr.del 0).add 8 p).1 = 0
    ∧ ((externRefMgr.del 0).add 8 p).2.ref 0 = some p
    ∧ addResults 8 externRefMgr [Call.del 0, Call.add p] = [0] := by
  refine ⟨rfl, rfl, rfl, ?_, rfl⟩
  simp [externRefManager.add, externRefManager.del, externRefMgr, mapSet]

/-- C3: recycling.  For every table, if `add(p)` returns `h` and `del(h)` is
called next, the following `add(q)` returns `h`. -/
theorem add_after_del_returns_same_handle (sz : Nat) (t : externRefManager) (p q : GoValue) :
    (((t.add sz p).2.del (t.add sz p).1).add sz q).1 = (t.add sz p).1 :=
  add_fst_of_gc_append sz _ (t.add sz p).2.gc _ q rfl

/-! ## Lemmas on encode and decode -/

theorem fromSSVMValue_I32 (sz : Nat) (mgr : externRefManager) (v : SSVM_Value) :
    fromSSVMValue sz mgr v SSVM_ValType_I32
      = .ok (.int32 (toSigned 32 (SSVM_ValueGetI32 v))) := rfl

theorem fromSSVMValue_I64 (sz : Nat) (mgr : externRefManager) (v : SSVM_Value) :
    fromSSVMValue sz mgr v SSVM_ValType_I64
      = .ok (.int64 (toSigned 64 (SSVM_ValueGetI64 v))) := rfl

theorem fromSSVMValue_ExternRef (sz : Nat) (mgr : externRefManager) (v : SSVM_Value) :
    fromSSVMValue sz mgr v SSVM_ValType_ExternRef
      = .ok (.externRef
          (ExternRef.mk v (mgr.ref (toUnsigned (8 * sz) (SSVM_ValueGetI64 v))).isSome)) := by
  have h : fromSSVMValue sz mgr v SSVM_ValType_ExternRef
      = match mgr.ref (toUnsigned (8 * sz) (SSVM_ValueGetI64 v)) with
        | some _ => .ok (.externRef { _inner := v, _valid := true })
        | none => .ok (.externRef { _inner := v, _valid := false }) := rfl
  rw [h]
  cases mgr.ref (toUnsigned (8 * sz) (SSVM_ValueGetI64 v)) <;> rfl

theorem NewExternRef_eq (sz : Nat) (mgr : externRefManager) (p : GoValue) :
    NewExternRef sz mgr p
      = .ok (ExternRef.mk
          { Value := toUnsigned 64 (toSigned 64 (toSigned 64
              ((toUnsigned 64 ((mgr.add sz p).1 : Int) : Nat) : Int))),
            Ty := SSVM_ValType_ExternRef } true, (mgr.add sz p).2) := by
  simp only [NewExternRef, toSSVMValue, SSVM_ValueGenI64]

theorem GetRef_of_valid (sz : Nat) (r : ExternRef) (mgr : externRefManager)
    (hr : r._valid = true) :
    ExternRef.GetRef sz r mgr
      = .ok (mgr.get (toUnsigned (8 * sz) (toSigned 64 (SSVM_ValueGetI64 r._inner)))) := by
  unfold ExternRef.GetRef
  rw [if_pos hr]
  rfl

theorem get_of_ref (t : externRefManager) (i : Nat) (p : GoValue) (h : t.ref i = some p) :
    t.get i = p := by
  simp [externRefManager.get, h]

/-! ## Release -/

/-- C4: a released reference still encodes.  For every table and object `p`,
`NewExternRef(p)` returns a reference `r`, `r.Release()` returns, and afterwards
`r` still has validity true and `toSSVMValue(r)` returns the native payload of
`r` instead of failing: `Release` has a value receiver, so its assignment
`self._valid = false` never reaches the caller's reference. -/
theorem released_reference_still_encodes (sz : Nat) (mgr : externRefManager) (p : GoValue) :
    ∃ r mgr1 mgr2, NewExternRef sz mgr p = .ok (r, mgr1)
      ∧ ExternRef.Release sz r mgr1 = .ok mgr2
      ∧ r._valid = true
      ∧ toSSVMValue sz (.externRef r) = .ok r._inner :=
  ⟨_, _, _, NewExternRef_eq sz mgr p, rfl, rfl, rfl⟩

/-- C5: post-release invalidity.  For every table and handle `h`, right after
`del(h)` the lookup `get(h)` is `nil`, and decoding with the `ExternRef` tag a
payload `v` whose embedded handle is `h` gives a reference wrapping `v` with
validity false. -/
theorem del_then_lookup_absent (sz : Nat) (t : externRefManager) (h : Nat) (v : SSVM_Value)
    (hv : toUnsigned (8 * sz) (SSVM_ValueGetI64 v) = h) :
    (t.del h).get h = GoValue.nil
    ∧ fromSSVMValue sz (t.del h) v SSVM_ValType_ExternRef
        = .ok (.externRef { _inner := v, _valid := false }) := by
  constructor
  · simp [externRefManager.get, del_ref_self]
  · rw [fromSSVMValue_ExternRef, hv, del_ref_self]; rfl

/-- C5 at a concrete input: on the table that holds one object under handle 1,
after `del(1)` the lookup of 1 is `nil` and a payload carrying 1 decodes to an
invalid reference. -/
theorem del_then_lookup_absent_witness :
    toUnsigned (8 * 8) (SSVM_ValueGetI64 { Value := 1, Ty := SSVM_ValType_ExternRef }) = 1
    ∧ ((externRefMgr.add 8 (.string "a")).2.del 1).get 1 = GoValue.nil
    ∧ fromSSVMValue 8 ((externRefMgr.add 8 (.string "a")).2.del 1)
        { Value := 1, Ty := SSVM_ValType_ExternRef } SSVM_ValType_ExternRef
        = .ok (.externRef { _inner := { Value := 1, Ty := SSVM_ValType_ExternRef },
                            _valid := false }) :=
  ⟨by decide, del_then_lookup_absent 8 (externRefMgr.add 8 (.string "a")).2 1
    { Value := 1, Ty := SSVM_ValType_ExternRef } (by decide)⟩

/-- C6: release of an absent handle is not a no-op.  On the table that holds
`"a"` under handle 1 (counter 2, empty free list), the handles 0 and 7 are not
keys of the mapping; `del(0)` returns but leaves the free list `[0]`, and the
next `add` returns the reserved handle 0 where it would have returned 2.  The
same for the never-issued handle 7, and for a second `del(1)` after `del(1)`,
which leaves the free list `[1, 1]`. -/
theorem del_absent_pushes_handle :
    (externRefMgr.add 8 (.string "a")).2.ref 0 = none
    ∧ (externRefMgr.add 8 (.string "a")).2.ref 7 = none
    ∧ (externRefMgr.add 8 (.string "a")).2.gc = []
    ∧ ((externRefMgr.add 8 (.string "a")).2.del 0).gc = [0]
    ∧ ((externRefMgr.add 8 (.string "a")).2.add 8 (.string "b")).1 = 2
    ∧ (((externRefMgr.add 8 (.string "a")).2.del 0).add 8 (.string "b")).1 = 0
    ∧ (((externRefMgr.add 8 (.string "a")).2.del 7).add 8 (.string "b")).1 = 7
    ∧ ((externRefMgr.add 8 (.string "a")).2.del 1).ref 1 = none
    ∧ ((externRefMgr.add 8 (.string "a")).2.del 1).gc = [1]
    ∧ (((externRefMgr.add 8 (.string "a")).2.del 1).del 1).gc = [1, 1] := by
  refine ⟨rfl, rfl, rfl, rfl, by decide, by decide, by decide, ?_, rfl, rfl⟩
  exact del_ref_self _ 1

/-! ## Round trips of integers -/

/-- C7: integer round trip.  For every `int32` value `x`, encoding `x` and
decoding the result with the tag `I32` gives the `int32` `x`; for every `int64`
value `y`, encoding `y` and decoding with the tag `I64` gives the `int64`
`y`. -/
theorem int_round_trip (sz : Nat) (mgr : externRefManager) (x y : Int)
    (hx : -(2 : Int) ^ 31 ≤ x ∧ x < (2 : Int) ^ 31)
    (hy : -(2 : Int) ^ 63 ≤ y ∧ y < (2 : Int) ^ 63) :
    (toSSVMValue sz (.int32 x)).bind (fun v => fromSSVMValue sz mgr v SSVM_ValType_I32)
        = .ok (.int32 x)
    ∧ (toSSVMValue sz (.int64 y)).bind (fun v => fromSSVMValue sz mgr v SSVM_ValType_I64)
        = .ok (.int64 y) := by
  have h32 : toSigned 32 x = x := toSigned_of_range 32 x (by decide) hx.1 hx.2
  have h64 : toSigned 64 y = y := toSigned_of_range 64 y (by decide) hy.1 hy.2
  constructor
  · show fromSSVMValue sz mgr (SSVM_ValueGenI32 (toSigned 32 x)) SSVM_ValType_I32 = _
    rw [fromSSVMValue_I32]
    simp only [SSVM_ValueGetI32, SSVM_ValueGenI32, toSigned_toUnsigned, toSigned_toSigned, h32]
  · show fromSSVMValue sz mgr (SSVM_ValueGenI64 (toSigned 64 y)) SSVM_ValType_I64 = _
    rw [fromSSVMValue_I64]
    simp only [SSVM_ValueGetI64, SSVM_ValueGenI64, toSigned_toUnsigned, toSigned_toSigned, h64]

/-- C7 at the `int32` value -1 and the least `int64` value. -/
theorem int_round_trip_witness :
    (-(2 : Int) ^ 31 ≤ -1 ∧ (-1 : Int) < (2 : Int) ^ 31)
    ∧ (-(2 : Int) ^ 63 ≤ -9223372036854775808
        ∧ (-9223372036854775808 : Int) < (2 : Int) ^ 63)
    ∧ (toSSVMValue 8 (.int32 (-1))).bind (fun v => fromSSVMValue 8 externRefMgr v SSVM_ValType_I32)
        = .ok (.int32 (-1))
    ∧ (toSSVMValue 8 (.int64 (-9223372036854775808))).bind
          (fun v => fromSSVMValue 8 externRefMgr v SSVM_ValType_I64)
        = .ok (.int64 (-9223372036854775808)) :=
  ⟨by decide, by decide,
    int_round_trip 8 externRefMgr (-1) (-9223372036854775808) (by decide) (by decide)⟩

/-! ## Lemmas on little-endian bytes -/

theorem leNat_append (a b : List Nat) :
    leNat (a ++ b) = leNat a + 256 ^ a.length * leNat b := by
  induction a with
  | nil => simp [leNat]
  | cons x xs ih =>
    show x + 256 * leNat (xs ++ b) = (x + 256 * leNat xs) + 256 ^ (xs.length + 1) * leNat b
    rw [ih]; ring

theorem leNat_lt (bs : List Nat) (hb : ∀ x ∈ bs, x < 256) : leNat bs < 256 ^ bs.length := by
  induction bs with
  | nil => simp [leNat]
  | cons x xs ih =>
    have hx : x < 256 := hb x (List.mem_cons_self x xs)
    have hxs := ih (fun y hy => hb y (List.mem_cons_of_mem x hy))
    simp only [leNat, List.length_cons, pow_succ]
    omega

theorem leNat_div_mod (bs : List Nat) (hb : ∀ x ∈ bs, x < 256) (i : Nat) :
    leNat bs / 256 ^ i % 256 = bs.getD i 0 := by
  induction bs generalizing i with
  | nil => simp [leNat]
  | cons x xs ih =>
    have hx : x < 256 := hb x (List.mem_cons_self x xs)
    have hxs := ih (fun y hy => hb y (List.mem_cons_of_mem x hy))
    cases i with
    | zero => simp [leNat]; omega
    | succ j =>
      have hp : 256 ^ (j + 1) = 256 * 256 ^ j := by ring
      have hq : (x + 256 * leNat xs) / 256 = leNat xs := by omega
      have hdiv : (x + 256 * leNat xs) / 256 ^ (j + 1) = leNat xs / 256 ^ j := by
        rw [hp, ← Nat.div_div_eq_div_mul, hq]
      simp only [leNat, hdiv, hxs j, List.getD_cons_succ]

theorem map_getD_range (bs : List Nat) :
    (List.range bs.length).map (fun i => bs.getD i 0) = bs := by
  apply List.ext_getElem
  · simp
  · intro i h1 h2
    simp [List.getD_eq_getElem?_getD, h2]

theorem PutUint64_lt (v x : Nat) (hx : x ∈ LittleEndian.PutUint64 v) : x < 256 := by
  simp only [LittleEndian.PutUint64, List.mem_cons, List.mem_singleton, List.not_mem_nil,
    or_false] at hx
  rcases hx with h | h | h | h | h | h | h | h <;> (subst h; exact Nat.mod_lt _ (by decide))

theorem Uint64_PutUint64 (v : Nat) (hv : v < 2 ^ 64) :
    LittleEndian.Uint64 (LittleEndian.PutUint64 v) = v := by
  simp only [LittleEndian.Uint64, LittleEndian.PutUint64, List.getD_cons_zero,
    List.getD_cons_succ]
  norm_num at hv ⊢
  omega

theorem leNat_PutUint64 (v : Nat) (hv : v < 2 ^ 64) :
    leNat (LittleEndian.PutUint64 v) = v := by
  simp only [LittleEndian.PutUint64, leNat]
  norm_num at hv ⊢
  omega

theorem PutUint64_Uint64 (b : List Nat) (hlen : b.length = 8) (hb : ∀ x ∈ b, x < 256) :
    LittleEndian.PutUint64 (LittleEndian.Uint64 b) = b := by
  match b, hlen with
  | [b0, b1, b2, b3, b4, b5, b6, b7], _ =>
    have h0 := hb b0 (by simp)
    have h1 := hb b1 (by simp)
    have h2 := hb b2 (by simp)
    have h3 := hb b3 (by simp)
    have h4 := hb b4 (by simp)
    have h5 := hb b5 (by simp)
    have h6 := hb b6 (by simp)
    have h7 := hb b7 (by simp)
    simp only [LittleEndian.Uint64, LittleEndian.PutUint64, List.getD_cons_zero,
      List.getD_cons_succ]
    norm_num
    refine ⟨?_, ?_, ?_, ?_, ?_, ?_, ?_, ?_⟩ <;> omega

theorem bytesOfInt128_roundtrip (b : List Nat) (hlen : b.length = 16)
    (hb : ∀ x ∈ b, x < 256) :
    bytesOfInt128 (SSVM_ValueGetV128 (SSVM_ValueGenV128 (int128OfBytes b))) = b := by
  have htake : b.take 16 = b := by rw [← hlen]; exact List.take_length b
  have hlt : leNat b < 2 ^ 128 := by
    have h := leNat_lt b hb
    rw [hlen] at h
    norm_num at h ⊢
    exact h
  have hN : toUnsigned 128 (SSVM_ValueGetV128 (SSVM_ValueGenV128 (int128OfBytes b)))
      = leNat b := by
    simp only [SSVM_ValueGetV128, SSVM_ValueGenV128, int128OfBytes, htake,
      toSigned_toUnsigned, toSigned_toSigned, toUnsigned_toSigned 128 128 _ (le_refl _)]
    exact toUnsigned_of_lt 128 _ hlt
  unfold bytesOfInt128
  rw [hN]
  have hfun : (fun i => leNat b / 256 ^ i % 256) = (fun i => b.getD i 0) := by
    funext i; exact leNat_div_mod b hb i
  rw [hfun, ← hlen]
  exact map_getD_range b

theorem NewV128_buf_eq (high low : Nat) :
    NewV128.buf high low = LittleEndian.PutUint64 low ++ LittleEndian.PutUint64 high := rfl

theorem NewV128_buf_length (high low : Nat) : (NewV128.buf high low).length = 16 := rfl

theorem NewV128_buf_lt (high low x : Nat) (hx : x ∈ NewV128.buf high low) : x < 256 := by
  rw [NewV128_buf_eq, List.mem_append] at hx
  rcases hx with h | h
  · exact PutUint64_lt low x h
  · exact PutUint64_lt high x h

/-! ## 128-bit vectors: round trip and layout -/

/-- C8: vector round trip.  For every pair of 64-bit values `(high, low)`,
`NewV128(high, low).GetVal()` is `(high, low)`, and so is `GetVal` of the
`V128` obtained by passing the vector through `toSSVMValue` and then
`fromSSVMValue` with the `V128` tag. -/
theorem v128_round_trip (sz : Nat) (mgr : externRefManager) (high low : Nat)
    (hh : high < 2 ^ 64) (hl : low < 2 ^ 64) :
    (NewV128 high low).GetVal = (high, low)
    ∧ ∃ c w, toSSVMValue sz (.v128 (NewV128 high low)) = .ok c
        ∧ fromSSVMValue sz mgr c SSVM_ValType_V128 = .ok (.v128 w)
        ∧ w.GetVal = (high, low) := by
  have hget : (NewV128 high low).GetVal = (high, low) := by
    unfold V128.GetVal NewV128
    simp only
    rw [bytesOfInt128_roundtrip _ (NewV128_buf_length high low) (NewV128_buf_lt high low)]
    have hd : (NewV128.buf high low).drop 8 = LittleEndian.PutUint64 high := rfl
    have ht : (NewV128.buf high low).take 8 = LittleEndian.PutUint64 low := rfl
    rw [hd, ht, Uint64_PutUint64 high hh, Uint64_PutUint64 low hl]
  exact ⟨hget, _, _, rfl, rfl, hget⟩

/-- C8 at the pair `(0x1122334455667788, 0x99AABBCCDDEEFF00)`. -/
theorem v128_round_trip_witness :
    0x1122334455667788 < 2 ^ 64 ∧ 0x99AABBCCDDEEFF00 < 2 ^ 64
    ∧ (NewV128 0x1122334455667788 0x99AABBCCDDEEFF00).GetVal
        = (0x1122334455667788, 0x99AABBCCDDEEFF00)
    ∧ ∃ c w, toSSVMValue 8 (.v128 (NewV128 0x1122334455667788 0x99AABBCCDDEEFF00)) = .ok c
        ∧ fromSSVMValue 8 externRefMgr c SSVM_ValType_V128 = .ok (.v128 w)
        ∧ w.GetVal = (0x1122334455667788, 0x99AABBCCDDEEFF00) :=
  ⟨by decide, by decide,
    v128_round_trip 8 externRefMgr 0x1122334455667788 0x99AABBCCDDEEFF00
      (by decide) (by decide)⟩

/-- C9: vector layout.  For every pair of 64-bit values `(high, low)`, the
buffer written by `NewV128` holds the little-endian bytes of `low` in positions
0..7 and those of `high` in positions 8..15; read as a little-endian unsigned
integer it is `high * 2^64 + low`, which is also the payload stored.  For
every 16-byte payload `b`, packing the pair that `GetVal` reads from `b` writes
`b` again. -/
theorem v128_layout (high low : Nat) (b : List Nat) (hh : high < 2 ^ 64) (hl : low < 2 ^ 64)
    (hlen : b.length = 16) (hb : ∀ x ∈ b, x < 256) :
    (NewV128.buf high low).take 8 = LittleEndian.PutUint64 low
    ∧ (NewV128.buf high low).drop 8 = LittleEndian.PutUint64 high
    ∧ leNat (NewV128.buf high low) = high * 2 ^ 64 + low
    ∧ (NewV128 high low)._inner.Value = high * 2 ^ 64 + low
    ∧ NewV128.buf (V128.GetVal { _inner := SSVM_ValueGenV128 (int128OfBytes b) }).1
        (V128.GetVal { _inner := SSVM_ValueGenV128 (int128OfBytes b) }).2 = b := by
  have hle : leNat (NewV128.buf high low) = high * 2 ^ 64 + low := by
    rw [NewV128_buf_eq, leNat_append, leNat_PutUint64 low hl, leNat_PutUint64 high hh]
    have : (LittleEndian.PutUint64 low).length = 8 := rfl
    rw [this]; norm_num; ring
  refine ⟨rfl, rfl, hle, ?_, ?_⟩
  · have htake : (NewV128.buf high low).take 16 = NewV128.buf high low := rfl
    have hlt : leNat (NewV128.buf high low) < 2 ^ 128 := by
      have h := leNat_lt _ (NewV128_buf_lt high low)
      rw [NewV128_buf_length] at h
      norm_num at h ⊢
      exact h
    simp only [NewV128, SSVM_ValueGenV128, int128OfBytes, htake,
      toUnsigned_toSigned 128 128 _ (le_refl _)]
    rw [toUnsigned_of_lt 128 _ hlt, hle]
  · unfold V128.GetVal
    simp only
    rw [bytesOfInt128_roundtrip b hlen hb, NewV128_buf_eq]
    have h1 : (b.take 8).length = 8 := by simp [hlen]
    have h2 : (b.drop 8).length = 8 := by simp [hlen]
    rw [PutUint64_Uint64 _ h1 (fun x hx => hb x (List.mem_of_mem_take hx)),
      PutUint64_Uint64 _ h2 (fun x hx => hb x (List.mem_of_mem_drop hx))]
    exact List.take_append_drop 8 b

/-- C9 at the pair `(0x1122334455667788, 0x99AABBCCDDEEFF00)` and at the
16-byte payload that this pair packs to. -/
theorem v128_layout_witness :
    [0, 255, 238, 221, 204, 187, 170, 153, 136, 119, 102, 85, 68, 51, 34, 17].length = 16
    ∧ (∀ x ∈ [0, 255, 238, 221, 204, 187, 170, 153, 136, 119, 102, 85, 68, 51, 34, 17],
        x < 256)
    ∧ (NewV128.buf 0x1122334455667788 0x99AABBCCDDEEFF00).take 8
        = LittleEndian.PutUint64 0x99AABBCCDDEEFF00
    ∧ (NewV128.buf 0x1122334455667788 0x99AABBCCDDEEFF00).drop 8
        = LittleEndian.PutUint64 0x1122334455667788
    ∧ leNat (NewV128.buf 0x1122334455667788 0x99AABBCCDDEEFF00)
        = 0x1122334455667788 * 2 ^ 64 + 0x99AABBCCDDEEFF00
    ∧ (NewV128 0x1122334455667788 0x99AABBCCDDEEFF00)._inner.Value
        = 0x1122334455667788 * 2 ^ 64 + 0x99AABBCCDDEEFF00
    ∧ NewV128.buf
        (V128.GetVal { _inner := SSVM_ValueGenV128 (int128OfBytes
          [0, 255, 238, 221, 204, 187, 170, 153, 136, 119, 102, 85, 68, 51, 34, 17]) }).1
        (V128.GetVal { _inner := SSVM_ValueGenV128 (int128OfBytes
          [0, 255, 238, 221, 204, 187, 170, 153, 136, 119, 102, 85, 68, 51, 34, 17]) }).2
        = [0, 255, 238, 221, 204, 187, 170, 153, 136, 119, 102, 85, 68, 51, 34, 17] :=
  ⟨rfl, by decide,
    v128_layout 0x1122334455667788 0x99AABBCCDDEEFF00
      [0, 255, 238, 221, 204, 187, 170, 153, 136, 119, 102, 85, 68, 51, 34, 17]
      (by decide) (by decide) rfl (by decide)⟩

/-! ## Registered objects resolve -/

/-- C10: registered objects resolve.  For every table whose fields are in the
range of `uint` and every object `p`, `NewExternRef(p)` returns a reference `r`
on the table left by `add(p)`; `r.GetRef()` returns `p`; and encoding `r` and
decoding the payload with the `ExternRef` tag gives a reference with validity
true whose embedded handle, and whose payload, is the handle `add` returned. -/
theorem registered_object_resolves (sz : Nat) (mgr : externRefManager) (p : GoValue)
    (hsz : sz = 4 ∨ sz = 8) (hmgr : mgr.inRange sz) :
    ∃ r mgr1, NewExternRef sz mgr p = .ok (r, mgr1)
      ∧ mgr1 = (mgr.add sz p).2
      ∧ ExternRef.GetRef sz r mgr1 = .ok p
      ∧ ∃ c, toSSVMValue sz (.externRef r) = .ok c
        ∧ fromSSVMValue sz mgr1 c SSVM_ValType_ExternRef
            = .ok (.externRef (ExternRef.mk c true))
        ∧ toUnsigned (8 * sz) (SSVM_ValueGetI64 c) = (mgr.add sz p).1
        ∧ c.Value = (mgr.add sz p).1 := by
  have hh := add_fst_lt sz mgr p hmgr
  have hle : 8 * sz ≤ 64 := by rcases hsz with h4 | h8 <;> omega
  have h64 : (mgr.add sz p).1 < 2 ^ 64 :=
    lt_of_lt_of_le hh (Nat.pow_le_pow_right (by decide) hle)
  have hval : toUnsigned 64 (toSigned 64 (((mgr.add sz p).1 : Nat) : Int))
      = (mgr.add sz p).1 := by
    rw [toUnsigned_toSigned 64 64 _ (le_refl _), toUnsigned_of_lt 64 _ h64]
  have hdec : toUnsigned (8 * sz) (toSigned 64 (((mgr.add sz p).1 : Nat) : Int))
      = (mgr.add sz p).1 := by
    rw [toUnsigned_toSigned _ 64 _ hle, toUnsigned_of_lt _ _ hh]
  have hpres := add_ref_self sz mgr p
  refine ⟨_, _, NewExternRef_eq sz mgr p, rfl, ?_, _, rfl, ?_, ?_, ?_⟩
  · rw [GetRef_of_valid _ _ _ rfl]
    simp only [SSVM_ValueGetI64, toSigned_toSigned, toSigned_toUnsigned, hval, hdec]
    rw [get_of_ref _ _ p hpres]
  · rw [fromSSVMValue_ExternRef]
    simp only [SSVM_ValueGetI64, toSigned_toSigned, toSigned_toUnsigned, hval, hdec, hpres,
      Option.isSome_some]
  · simp only [SSVM_ValueGetI64, toSigned_toSigned, toSigned_toUnsigned, hval, hdec]
  · simp only [toSigned_toSigned, toSigned_toUnsigned, hval]

/-- C10 at the initial table, a 64-bit platform and the object `"a"`. -/
theorem registered_object_resolves_witness :
    externRefMgr.inRange 8
    ∧ ∃ r mgr1, NewExternRef 8 externRefMgr (.string "a") = .ok (r, mgr1)
      ∧ mgr1 = (externRefMgr.add 8 (.string "a")).2
      ∧ ExternRef.GetRef 8 r mgr1 = .ok (.string "a")
      ∧ ∃ c, toSSVMValue 8 (.externRef r) = .ok c
        ∧ fromSSVMValue 8 mgr1 c SSVM_ValType_ExternRef
            = .ok (.externRef (ExternRef.mk c true))
        ∧ toUnsigned (8 * 8) (SSVM_ValueGetI64 c) = (externRefMgr.add 8 (.string "a")).1
        ∧ c.Value = (externRefMgr.add 8 (.string "a")).1 :=
  ⟨⟨by decide, by simp [externRefMgr]⟩,
    registered_object_resolves 8 externRefMgr (.string "a") (Or.inr rfl)
      ⟨by decide, by simp [externRefMgr]⟩⟩

/-! ## Decode: references and tags -/

/-- C11: decoding with the `ExternRef` tag never fails and reports validity
exactly.  For every table and payload `v`, `fromSSVMValue(v, ExternRef)` returns
an `ExternRef` that wraps `v` and whose validity flag is true if and only if the
handle embedded in `v` is a key of the mapping. -/
theorem decode_externref_validity (sz : Nat) (mgr : externRefManager) (v : SSVM_Value) :
    ∃ r, fromSSVMValue sz mgr v SSVM_ValType_ExternRef = .ok (.externRef r)
      ∧ r._inner = v
      ∧ (r._valid = true
          ↔ (mgr.ref (toUnsigned (8 * sz) (SSVM_ValueGetI64 v))).isSome = true) :=
  ⟨_, fromSSVMValue_ExternRef sz mgr v, rfl, Iff.rfl⟩

theorem fromSSVMValue_isOk_of_tag (sz : Nat) (mgr : externRefManager) (v : SSVM_Value)
    (t : Nat)
    (ht : t = SSVM_ValType_I32 ∨ t = SSVM_ValType_I64 ∨ t = SSVM_ValType_F32
      ∨ t = SSVM_ValType_F64 ∨ t = SSVM_ValType_V128 ∨ t = SSVM_ValType_FuncRef
      ∨ t = SSVM_ValType_ExternRef) :
    ∃ g, fromSSVMValue sz mgr v t = .ok g := by
  rcases ht with h | h | h | h | h | h | h
  · exact ⟨_, h ▸ fromSSVMValue_I32 sz mgr v⟩
  · exact ⟨_, h ▸ fromSSVMValue_I64 sz mgr v⟩
  · subst h; exact ⟨_, rfl⟩
  · subst h; exact ⟨_, rfl⟩
  · subst h; exact ⟨_, rfl⟩
  · subst h; exact ⟨_, rfl⟩
  · exact ⟨_, h ▸ fromSSVMValue_ExternRef sz mgr v⟩

theorem fromSSVMValue_error_of_not_tag (sz : Nat) (mgr : externRefManager) (v : SSVM_Value)
    (t : Nat)
    (ht : ¬ (t = SSVM_ValType_I32 ∨ t = SSVM_ValType_I64 ∨ t = SSVM_ValType_F32
      ∨ t = SSVM_ValType_F64 ∨ t = SSVM_ValType_V128 ∨ t = SSVM_ValType_FuncRef
      ∨ t = SSVM_ValType_ExternRef)) :
    fromSSVMValue sz mgr v t = .error "Wrong argument of fromSSVMValue()" := by
  simp only [not_or] at ht
  obtain ⟨h1, h2, h3, h4, h5, h6, h7⟩ := ht
  simp only [fromSSVMValue, if_neg h1, if_neg h2, if_neg h3, if_neg h4, if_neg h5, if_neg h6,
    if_neg h7]

/-- C12: unknown tag rejection.  For every table, payload `v` and tag `t`,
`fromSSVMValue(v, t)` panics (with "Wrong argument of fromSSVMValue()") if and
only if `t` is none of the seven tags `I32`, `I64`, `F32`, `F64`, `V128`,
`FuncRef`, `ExternRef`, and it returns a value if and only if `t` is one of
them. -/
theorem decode_fails_iff_unknown_tag (sz : Nat) (mgr : externRefManager) (v : SSVM_Value)
    (t : Nat) :
    ((∃ e, fromSSVMValue sz mgr v t = .error e)
        ↔ ¬ (t = SSVM_ValType_I32 ∨ t = SSVM_ValType_I64 ∨ t = SSVM_ValType_F32
          ∨ t = SSVM_ValType_F64 ∨ t = SSVM_ValType_V128 ∨ t = SSVM_ValType_FuncRef
          ∨ t = SSVM_ValType_ExternRef))
    ∧ ((fromSSVMValue sz mgr v t = .error "Wrong argument of fromSSVMValue()")
        ↔ ¬ (t = SSVM_ValType_I32 ∨ t = SSVM_ValType_I64 ∨ t = SSVM_ValType_F32
          ∨ t = SSVM_ValType_F64 ∨ t = SSVM_ValType_V128 ∨ t = SSVM_ValType_FuncRef
          ∨ t = SSVM_ValType_ExternRef))
    ∧ ((∃ g, fromSSVMValue sz mgr v t = .ok g)
        ↔ (t = SSVM_ValType_I32 ∨ t = SSVM_ValType_I64 ∨ t = SSVM_ValType_F32
          ∨ t = SSVM_ValType_F64 ∨ t = SSVM_ValType_V128 ∨ t = SSVM_ValType_FuncRef
          ∨ t = SSVM_ValType_ExternRef)) := by
  by_cases ht : t = SSVM_ValType_I32 ∨ t = SSVM_ValType_I64 ∨ t = SSVM_ValType_F32
      ∨ t = SSVM_ValType_F64 ∨ t = SSVM_ValType_V128 ∨ t = SSVM_ValType_FuncRef
      ∨ t = SSVM_ValType_ExternRef
  · obtain ⟨g, hg⟩ := fromSSVMValue_isOk_of_tag sz mgr v t ht
    refine ⟨⟨?_, fun h => absurd ht h⟩, ⟨?_, fun h => absurd ht h⟩, ⟨fun _ => ht, fun _ => ⟨g, hg⟩⟩⟩
    · rintro ⟨e, he⟩; rw [hg] at he; cases he
    · intro he; rw [hg] at he; cases he
  · have herr := fromSSVMValue_error_of_not_tag sz mgr v t ht
    refine ⟨⟨fun _ => ht, fun _ => ⟨_, herr⟩⟩, ⟨fun _ => ht, fun _ => herr⟩, ⟨?_, fun h => absurd h ht⟩⟩
    rintro ⟨g, hg⟩; rw [herr] at hg; cases hg

/-- C12 at the tag 0, which is none of the seven, and at the tag `I32`. -/
theorem decode_fails_iff_unknown_tag_witness :
    fromSSVMValue 8 externRefMgr { Value := 7, Ty := 0 } 0
        = .error "Wrong argument of fromSSVMValue()"
    ∧ ∃ g, fromSSVMValue 8 externRefMgr { Value := 7, Ty := 0 } SSVM_ValType_I32 = .ok g :=
  ⟨(decode_fails_iff_unknown_tag 8 externRefMgr { Value := 7, Ty := 0 } 0).2.1.mpr (by decide),
   (decode_fails_iff_unknown_tag 8 externRefMgr { Value := 7, Ty := 0 }
      SSVM_ValType_I32).2.2.mpr (Or.inl rfl)⟩

/-! ## Encode: misuse and unsigned inputs -/

/-- C13: encode fails exactly on misuse.  For every host value, `toSSVMValue`
panics if and only if the value is an `ExternRef` whose validity flag is false
or a value of a kind outside its type switch (`nil`, `bool`, `string`, any other
type).  A `FuncRef`, a valid `ExternRef` and a `V128` give their stored payload
unchanged; the released `ExternRef` and the other kinds give the two panics of
the source. -/
theorem encode_fails_iff_misuse (sz : Nat) (value : GoValue) :
    ((∃ e, toSSVMValue sz value = .error e)
        ↔ match value with
          | .externRef r => r._valid = false
          | .nil => True
          | .bool _ => True
          | .string _ => True
          | .other _ => True
          | _ => False)
    ∧ (∀ r : FuncRef, toSSVMValue sz (.funcRef r) = .ok r._inner)
    ∧ (∀ c : SSVM_Value, toSSVMValue sz (.externRef (ExternRef.mk c true)) = .ok c)
    ∧ (∀ c : SSVM_Value, toSSVMValue sz (.externRef (ExternRef.mk c false))
        = .error "External reference is released")
    ∧ (∀ v : V128, toSSVMValue sz (.v128 v) = .ok v._inner)
    ∧ toSSVMValue sz .nil = .error "Wrong argument of toSSVMValue()"
    ∧ (∀ b, toSSVMValue sz (.bool b) = .error "Wrong argument of toSSVMValue()")
    ∧ (∀ s, toSSVMValue sz (.string s) = .error "Wrong argument of toSSVMValue()")
    ∧ (∀ s, toSSVMValue sz (.other s) = .error "Wrong argument of toSSVMValue()") := by
  refine ⟨?_, fun _ => rfl, fun _ => rfl, fun _ => rfl, fun _ => rfl, rfl, fun _ => rfl,
    fun _ => rfl, fun _ => rfl⟩
  cases value with
  | nil => exact ⟨fun _ => trivial, fun _ => ⟨_, rfl⟩⟩
  | bool b => exact ⟨fun _ => trivial, fun _ => ⟨_, rfl⟩⟩
  | string s => exact ⟨fun _ => trivial, fun _ => ⟨_, rfl⟩⟩
  | other s => exact ⟨fun _ => trivial, fun _ => ⟨_, rfl⟩⟩
  | funcRef r => simp [toSSVMValue]
  | externRef r =>
    rcases r with ⟨c, b⟩
    cases b <;> simp [toSSVMValue]
  | v128 v => simp [toSSVMValue]
  | int n => by_cases h : sz = 4 <;> simp [toSSVMValue, h]
  | int32 n => simp [toSSVMValue]
  | int64 n => simp [toSSVMValue]
  | uint n => by_cases h : sz = 4 <;> simp [toSSVMValue, h]
  | uint32 n => simp [toSSVMValue]
  | uint64 n => simp [toSSVMValue]
  | float32 b => simp [toSSVMValue]
  | float64 b => simp [toSSVMValue]

/-- C13 at a released reference and at an `int8`, which both fail, and at an
`int32`, which does not. -/
theorem encode_fails_iff_misuse_witness :
    (∃ e, toSSVMValue 8 (.externRef (ExternRef.mk { Value := 1, Ty := 0 } false)) = .error e)
    ∧ (∃ e, toSSVMValue 8 (.other "int8") = .error e)
    ∧ ¬ (∃ e, toSSVMValue 8 (.int32 5) = .error e) :=
  ⟨(encode_fails_iff_misuse 8 (.externRef (ExternRef.mk { Value := 1, Ty := 0 } false))).1.mpr
      rfl,
   (encode_fails_iff_misuse 8 (.other "int8")).1.mpr trivial,
   fun h => (encode_fails_iff_misuse 8 (.int32 5)).1.mp h⟩

theorem toSigned_natCast (bits n : Nat) (h : n < 2 ^ bits) :
    toSigned bits (n : Int)
      = if (n : Int) < (2 : Int) ^ (bits - 1) then (n : Int) else (n : Int) - (2 : Int) ^ bits := by
  have h1 : ((n : Int) % (2 : Int) ^ bits) = n := by
    apply Int.emod_eq_of_lt (Int.natCast_nonneg n)
    exact_mod_cast h
  unfold toSigned
  rw [h1]

/-- C14: unsigned inputs are reinterpreted, not range-checked.  For every
`uint32` value `u`, encoding `u` and decoding with the tag `I32` gives the
`int32` `u` when `u < 2^31` and `u - 2^32` otherwise; for every `uint64` value
`w`, encoding and decoding with `I64` gives `w` when `w < 2^63` and `w - 2^64`
otherwise.  An `int` or a `uint` is encoded by `SSVM_ValueGenI32` when
`unsafe.Sizeof` is 4 and by `SSVM_ValueGenI64` when it is 8, the `uint` with the
same reinterpretation. -/
theorem unsigned_reinterpreted (sz : Nat) (mgr : externRefManager) (u w : Nat) (i : Int)
    (hu : u < 2 ^ 32) (hw : w < 2 ^ 64) :
    (toSSVMValue sz (.uint32 u)).bind (fun v => fromSSVMValue sz mgr v SSVM_ValType_I32)
        = .ok (.int32 (if (u : Int) < (2 : Int) ^ 31 then (u : Int)
            else (u : Int) - (2 : Int) ^ 32))
    ∧ (toSSVMValue sz (.uint64 w)).bind (fun v => fromSSVMValue sz mgr v SSVM_ValType_I64)
        = .ok (.int64 (if (w : Int) < (2 : Int) ^ 63 then (w : Int)
            else (w : Int) - (2 : Int) ^ 64))
    ∧ toSSVMValue 4 (.int i) = .ok (SSVM_ValueGenI32 (toSigned 32 i))
    ∧ toSSVMValue 8 (.int i) = .ok (SSVM_ValueGenI64 (toSigned 64 i))
    ∧ toSSVMValue 4 (.uint u) = toSSVMValue 4 (.uint32 u)
    ∧ toSSVMValue 8 (.uint w) = toSSVMValue 8 (.uint64 w)
    ∧ (toSSVMValue 4 (.uint u)).bind (fun v => fromSSVMValue 4 mgr v SSVM_ValType_I32)
        = .ok (.int32 (if (u : Int) < (2 : Int) ^ 31 then (u : Int)
            else (u : Int) - (2 : Int) ^ 32))
    ∧ (toSSVMValue 8 (.uint w)).bind (fun v => fromSSVMValue 8 mgr v SSVM_ValType_I64)
        = .ok (.int64 (if (w : Int) < (2 : Int) ^ 63 then (w : Int)
            else (w : Int) - (2 : Int) ^ 64)) := by
  have h32 := toSigned_natCast 32 u hu
  have h64 := toSigned_natCast 64 w hw
  simp only [Nat.add_one_sub_one, show (32 : Nat) - 1 = 31 from rfl,
    show (64 : Nat) - 1 = 63 from rfl] at h32 h64
  have e32 : ∀ s (m : externRefManager),
      fromSSVMValue s m (SSVM_ValueGenI32 (toSigned 32 (toSigned 32 (u : Int))))
        SSVM_ValType_I32 = .ok (.int32 (toSigned 32 (u : Int))) := by
    intro s m
    rw [fromSSVMValue_I32]
    simp only [SSVM_ValueGetI32, SSVM_ValueGenI32, toSigned_toUnsigned, toSigned_toSigned]
  have e64 : ∀ s (m : externRefManager),
      fromSSVMValue s m (SSVM_ValueGenI64 (toSigned 64 (toSigned 64 (w : Int))))
        SSVM_ValType_I64 = .ok (.int64 (toSigned 64 (w : Int))) := by
    intro s m
    rw [fromSSVMValue_I64]
    simp only [SSVM_ValueGetI64, SSVM_ValueGenI64, toSigned_toUnsigned, toSigned_toSigned]
  refine ⟨?_, ?_, rfl, rfl, rfl, rfl, ?_, ?_⟩
  · rw [← h32]; exact e32 sz mgr
  · rw [← h64]; exact e64 sz mgr
  · rw [← h32]; exact e32 4 mgr
  · rw [← h64]; exact e64 8 mgr

/-- C14 at the largest `uint32` and `uint64` values, which decode to -1. -/
theorem unsigned_reinterpreted_witness :
    4294967295 < 2 ^ 32 ∧ 18446744073709551615 < 2 ^ 64
    ∧ (toSSVMValue 8 (.uint32 4294967295)).bind
          (fun v => fromSSVMValue 8 externRefMgr v SSVM_ValType_I32)
        = .ok (.int32 (if ((4294967295 : Nat) : Int) < (2 : Int) ^ 31
            then ((4294967295 : Nat) : Int) else ((4294967295 : Nat) : Int) - (2 : Int) ^ 32))
    ∧ (if ((4294967295 : Nat) : Int) < (2 : Int) ^ 31
            then ((4294967295 : Nat) : Int) else ((4294967295 : Nat) : Int) - (2 : Int) ^ 32)
        = -1 :=
  ⟨by decide, by decide,
    (unsigned_reinterpreted 8 externRefMgr 4294967295 18446744073709551615 0
      (by decide) (by decide)).1, by decide⟩

/-! ## The free list -/

/-- C15: reuse does not pop.  From the initial table, after `add(a)`, `add(b)`
(handles 1 and 2), `del(1)` and `del(2)`, the free list is `[1, 2]`; the next two
`add` calls both return 2, not 2 and then 1, and each leaves the free list
`[1, 2]` as it was. -/
theorem add_reuse_keeps_free_list :
    addResults 8 externRefMgr
        [Call.add (.string "a"), Call.add (.string "b"), Call.del 1, Call.del 2,
         Call.add (.string "c"), Call.add (.string "d")]
      = [1, 2, 2, 2]
    ∧ (tableAfter 8 externRefMgr
        [Call.add (.string "a"), Call.add (.string "b"), Call.del 1, Call.del 2]).gc = [1, 2]
    ∧ (tableAfter 8 externRefMgr
        [Call.add (.string "a"), Call.add (.string "b"), Call.del 1, Call.del 2,
         Call.add (.string "c")]).gc = [1, 2]
    ∧ (tableAfter 8 externRefMgr
        [Call.add (.string "a"), Call.add (.string "b"), Call.del 1, Call.del 2,
         Call.add (.string "c"), Call.add (.string "d")]).gc = [1, 2] := by
  refine ⟨by decide, by decide, by decide, by decide⟩

/-- C16: the mapping and the free list are not kept disjoint.  From the initial
table, after `add(a)` (handle 1), `del(1)` and `add(b)` (handle 1 again), the
handle 1 is a key of the mapping and an element of the free list. -/
theorem handle_in_mapping_and_free_list :
    addResults 8 externRefMgr [Call.add (.string "a"), Call.del 1, Call.add (.string "b")]
      = [1, 1]
    ∧ (tableAfter 8 externRefMgr
        [Call.add (.string "a"), Call.del 1, Call.add (.string "b")]).ref 1
      = some (.string "b")
    ∧ 1 ∈ (tableAfter 8 externRefMgr
        [Call.add (.string "a"), Call.del 1, Call.add (.string "b")]).gc := by
  refine ⟨by decide, by decide, by decide⟩

/-! ## Frame conditions -/

theorem add_ref_of_ne (sz : Nat) (t : externRefManager) (p : GoValue) (k : Nat)
    (hk : k ≠ (t.add sz p).1) : (t.add sz p).2.ref k = t.ref k := by
  unfold externRefManager.add at hk ⊢
  split
  · rename_i h
    simp only [h, dite_true, List.get_eq_getElem] at hk
    simp [mapSet, hk]
  · rename_i h
    simp only [h, dite_false] at hk
    simp [mapSet, hk]

/-- C20: table operations touch one mapping key.  For every table, `add(p)`
returning `h` leaves every key other than `h` with its presence and its object
and stores `p` under `h`; `del(i)` leaves every key other than `i` as it was,
removes `i`, and does not change the next-fresh counter. -/
theorem table_ops_touch_one_key (sz : Nat) (t : externRefManager) (p : GoValue) (i k : Nat) :
    (k ≠ (t.add sz p).1 → (t.add sz p).2.ref k = t.ref k)
    ∧ (t.add sz p).2.ref (t.add sz p).1 = some p
    ∧ (k ≠ i → (t.del i).ref k = t.ref k)
    ∧ (t.del i).ref i = none
    ∧ (t.del i).idx = t.idx := by
  refine ⟨add_ref_of_ne sz t p k, add_ref_self sz t p, ?_, del_ref_self t i, rfl⟩
  intro hk
  simp [externRefManager.del, mapDelete, hk]

/-- C20 at the table holding `"a"` under handle 1: `add("b")` returns 2 and
`del(2)` acts on key 2, and both leave key 1 alone. -/
theorem table_ops_touch_one_key_witness :
    ((externRefMgr.add 8 (.string "a")).2.add 8 (.string "b")).1 = 2
    ∧ ((externRefMgr.add 8 (.string "a")).2.add 8 (.string "b")).2.ref 1
        = (externRefMgr.add 8 (.string "a")).2.ref 1
    ∧ ((externRefMgr.add 8 (.string "a")).2.del 2).ref 1
        = (externRefMgr.add 8 (.string "a")).2.ref 1 :=
  ⟨by decide,
   (table_ops_touch_one_key 8 (externRefMgr.add 8 (.string "a")).2 (.string "b") 2 1).1
      (by decide),
   (table_ops_touch_one_key 8 (externRefMgr.add 8 (.string "a")).2 (.string "b") 2 1).2.2.1
      (by decide)⟩

theorem getSt_unlocked (t : externRefManager) (i : Nat) :
    externRefManager.getSt (lockedManager.mk false t) i
      = .ok (t.get i, lockedManager.mk false t) := by
  simp only [externRefManager.getSt, Mutex.Lock, Mutex.Unlock, externRefManager.get]
  rfl

theorem fromSSVMValueSt_eq (sz : Nat) (s : lockedManager) (v : SSVM_Value) (tag : Nat) :
    fromSSVMValueSt sz s v tag = (fromSSVMValue sz s.tab v tag).map (fun g => (g, s)) := by
  by_cases h1 : tag = SSVM_ValType_I32
  · subst h1; rfl
  by_cases h2 : tag = SSVM_ValType_I64
  · subst h2; rfl
  by_cases h3 : tag = SSVM_ValType_F32
  · subst h3; rfl
  by_cases h4 : tag = SSVM_ValType_F64
  · subst h4; rfl
  by_cases h5 : tag = SSVM_ValType_V128
  · subst h5; rfl
  by_cases h6 : tag = SSVM_ValType_FuncRef
  · subst h6; rfl
  by_cases h7 : tag = SSVM_ValType_ExternRef
  · subst h7
    have hst : fromSSVMValueSt sz s v SSVM_ValType_ExternRef
        = match s.tab.ref (toUnsigned (8 * sz) (SSVM_ValueGetI64 v)) with
          | some _ => .ok (.externRef { _inner := v, _valid := true }, s)
          | none => .ok (.externRef { _inner := v, _valid := false }, s) := rfl
    rw [hst, fromSSVMValue_ExternRef]
    cases s.tab.ref (toUnsigned (8 * sz) (SSVM_ValueGetI64 v)) <;> rfl
  · simp only [fromSSVMValueSt, fromSSVMValue, if_neg h1, if_neg h2, if_neg h3, if_neg h4,
      if_neg h5, if_neg h6, if_neg h7]
    rfl

/-- C18: decode and lookup are read-only.  With the table threaded through
every statement of the three bodies: for every table, payload `v`, tag,
handle `i` and reference `r`, `fromSSVMValue(v, tag)` returns what the decode
returns on that table and, whenever it returns, leaves mapping, counter, free
list and mutex as they were; called with the mutex free, `externRefManager.get(i)`
returns `self.ref[i]` and `r.GetRef()` returns its result, both always, and both
leave mapping, counter and free list as they were and the mutex free again. -/
theorem reads_leave_table (sz : Nat) (t : externRefManager) (v : SSVM_Value) (tag i : Nat)
    (r : ExternRef) (mu : Bool) :
    fromSSVMValueSt sz (lockedManager.mk mu t) v tag
        = (fromSSVMValue sz t v tag).map (fun g => (g, lockedManager.mk mu t))
    ∧ (∀ g s1, fromSSVMValueSt sz (lockedManager.mk mu t) v tag = .ok (g, s1) →
        s1.tab.ref = t.ref ∧ s1.tab.idx = t.idx ∧ s1.tab.gc = t.gc ∧ s1.mu = mu)
    ∧ (∃ g s1, externRefManager.getSt (lockedManager.mk false t) i = .ok (g, s1)
        ∧ g = (match t.ref i with | some x => x | none => GoValue.nil)
        ∧ s1.tab.ref = t.ref ∧ s1.tab.idx = t.idx ∧ s1.tab.gc = t.gc ∧ s1.mu = false)
    ∧ (∃ g s1, ExternRef.GetRefSt sz r (lockedManager.mk false t) = .ok (g, s1)
        ∧ ExternRef.GetRef sz r t = .ok g
        ∧ s1.tab.ref = t.ref ∧ s1.tab.idx = t.idx ∧ s1.tab.gc = t.gc ∧ s1.mu = false) := by
  have hdec := fromSSVMValueSt_eq sz (lockedManager.mk mu t) v tag
  refine ⟨hdec, ?_, ?_, ?_⟩
  · intro g s1 h
    rw [hdec] at h
    cases hd : fromSSVMValue sz t v tag with
    | error e => simp [hd, Except.map] at h
    | ok g1 =>
      simp only [hd, Except.map, Except.ok.injEq, Prod.mk.injEq] at h
      obtain ⟨_, h2⟩ := h
      subst h2
      exact ⟨rfl, rfl, rfl, rfl⟩
  · exact ⟨_, _, getSt_unlocked t i, rfl, rfl, rfl, rfl, rfl⟩
  · rcases r with ⟨c, b⟩
    cases b
    · exact ⟨GoValue.nil, lockedManager.mk false t, rfl, rfl, rfl, rfl, rfl, rfl⟩
    · refine ⟨_, lockedManager.mk false t, ?_, GetRef_of_valid sz _ t rfl, rfl, rfl, rfl, rfl⟩
      have h64 := fromSSVMValueSt_eq sz (lockedManager.mk false t) c SSVM_ValType_I64
      rw [fromSSVMValue_I64] at h64
      simp only [ExternRef.GetRefSt, h64, Except.map, assertInt64, if_true]
      exact getSt_unlocked t _

/-- C18 at the table holding `"a"` under handle 1: decoding a payload that
carries 1 with the `ExternRef` tag, `get(1)` and `GetRef` of the reference all
return and leave the table as it was. -/
theorem reads_leave_table_witness :
    fromSSVMValueSt 8 (lockedManager.mk false (externRefMgr.add 8 (.string "a")).2)
        { Value := 1, Ty := SSVM_ValType_ExternRef } SSVM_ValType_ExternRef
      = .ok (.externRef (ExternRef.mk { Value := 1, Ty := SSVM_ValType_ExternRef } true),
          lockedManager.mk false (externRefMgr.add 8 (.string "a")).2)
    ∧ ∃ g s1, externRefManager.getSt
          (lockedManager.mk false (externRefMgr.add 8 (.string "a")).2) 1 = .ok (g, s1)
        ∧ g = GoValue.string "a"
        ∧ s1.tab.ref = (externRefMgr.add 8 (.string "a")).2.ref :=
  ⟨((reads_leave_table 8 (externRefMgr.add 8 (.string "a")).2
      { Value := 1, Ty := SSVM_ValType_ExternRef } SSVM_ValType_ExternRef 1
      (ExternRef.mk { Value := 1, Ty := SSVM_ValType_ExternRef } true) false).1).trans
      (by rfl),
   by
    obtain ⟨g, s1, h1, h2, h3, _⟩ :=
      (reads_leave_table 8 (externRefMgr.add 8 (.string "a")).2
        { Value := 1, Ty := SSVM_ValType_ExternRef } SSVM_ValType_ExternRef 1
        (ExternRef.mk { Value := 1, Ty := SSVM_ValType_ExternRef } true) false).2.2.1
    exact ⟨g, s1, h1, h2.trans (by rfl), h3⟩⟩

/-! ## Fresh handles -/

theorem runCalls_fst (sz : Nat) (calls : List Call) (t : externRefManager) (l l1 : List Nat) :
    (runCalls sz (t, l) calls).1 = (runCalls sz (t, l1) calls).1 := by
  induction calls generalizing t l l1 with
  | nil => rfl
  | cons c cs ih =>
    cases c with
    | add p => exact ih _ _ _
    | get i => exact ih _ _ _
    | del i => exact ih _ _ _

theorem tableAfter_add_cons (sz : Nat) (t : externRefManager) (p : GoValue)
    (cs : List Call) :
    tableAfter sz t (Call.add p :: cs) = tableAfter sz (t.add sz p).2 cs :=
  runCalls_fst sz cs _ _ _

theorem addResults_append (sz : Nat) (c1 c2 : List Call) (t : externRefManager) :
    addResults sz t (c1 ++ c2)
      = addResults sz t c1 ++ addResults sz (tableAfter sz t c1) c2 := by
  induction c1 generalizing t with
  | nil => rfl
  | cons c cs ih =>
    cases c with
    | add p =>
      show (t.add sz p).1 :: addResults sz (t.add sz p).2 (cs ++ c2) = _
      rw [ih, tableAfter_add_cons]
      rfl
    | get i =>
      show addResults sz t (cs ++ c2) = _
      rw [ih]
      rfl
    | del i =>
      show addResults sz (t.del i) (cs ++ c2) = _
      rw [ih]
      have : tableAfter sz t (Call.del i :: cs) = tableAfter sz (t.del i) cs :=
        runCalls_fst sz cs _ _ _
      rw [this]
      rfl

theorem add_of_gc_nil (sz : Nat) (t : externRefManager) (p : GoValue) (hgc : t.gc = []) :
    (t.add sz p).1 = t.idx ∧ (t.add sz p).2.idx = (t.idx + 1) % 2 ^ (8 * sz)
    ∧ (t.add sz p).2.gc = [] ∧ (t.add sz p).2.ref = mapSet t.ref t.idx p := by
  refine ⟨?_, ?_, ?_, ?_⟩ <;> simp [externRefManager.add, hgc]

theorem adds_from_fresh (sz : Nat) (ps : List GoValue) (t : externRefManager)
    (hgc : t.gc = []) (hlt : t.idx < 2 ^ (8 * sz)) (hn : t.idx + ps.length ≤ 2 ^ (8 * sz)) :
    addResults sz t (ps.map Call.add) = List.range' t.idx ps.length
    ∧ (tableAfter sz t (ps.map Call.add)).gc = []
    ∧ (tableAfter sz t (ps.map Call.add)).idx = (t.idx + ps.length) % 2 ^ (8 * sz)
    ∧ ∀ k, ((tableAfter sz t (ps.map Call.add)).ref k).isSome = true
        ↔ ((t.ref k).isSome = true ∨ (t.idx ≤ k ∧ k < t.idx + ps.length)) := by
  induction ps generalizing t with
  | nil =>
    refine ⟨rfl, hgc, ?_, ?_⟩
    · show t.idx = (t.idx + 0) % 2 ^ (8 * sz)
      rw [Nat.add_zero, Nat.mod_eq_of_lt hlt]
    · intro k
      show (t.ref k).isSome = true ↔ _
      constructor
      · exact fun h => Or.inl h
      · rintro (h | ⟨h1, h2⟩)
        · exact h
        · simp only [List.length_nil, Nat.add_zero] at h2; omega
  | cons p ps ih =>
    obtain ⟨h1, h2, h3, h4⟩ := add_of_gc_nil sz t p hgc
    have hpos : 0 < 2 ^ (8 * sz) := Nat.two_pow_pos _
    have hlt1 : (t.add sz p).2.idx < 2 ^ (8 * sz) := by rw [h2]; exact Nat.mod_lt _ hpos
    simp only [List.length_cons] at hn
    have hn1 : (t.add sz p).2.idx + ps.length ≤ 2 ^ (8 * sz) := by
      rw [h2]
      by_cases hz : ps.length = 0
      · rw [hz, Nat.add_zero]; exact Nat.le_of_lt (Nat.mod_lt _ hpos)
      · rw [Nat.mod_eq_of_lt (by omega)]; omega
    obtain ⟨r1, r2, r3, r4⟩ := ih (t.add sz p).2 h3 hlt1 hn1
    simp only [List.map_cons, List.length_cons, tableAfter_add_cons]
    refine ⟨?_, r2, ?_, ?_⟩
    · show (t.add sz p).1 :: addResults sz (t.add sz p).2 (ps.map Call.add) = _
      rw [r1, h1, h2, List.range'_succ]
      by_cases hz : ps.length = 0
      · rw [hz]; rfl
      · rw [Nat.mod_eq_of_lt (by omega)]
    · rw [r3, h2, Nat.mod_add_mod]
      congr 1
      omega
    · intro k
      rw [r4 k, h4, h2]
      by_cases hz : ps.length = 0
      · simp only [mapSet, hz, Nat.add_zero]
        by_cases hk : k = t.idx
        · subst hk; simp
        · simp only [if_neg hk]
          constructor
          · rintro (h | ⟨a, b⟩)
            · exact Or.inl h
            · omega
          · rintro (h | ⟨a, b⟩)
            · exact Or.inl h
            · omega
      · rw [Nat.mod_eq_of_lt (by omega)]
        simp only [mapSet]
        by_cases hk : k = t.idx
        · subst hk; simp
        · simp only [if_neg hk]
          constructor
          · rintro (h | ⟨a, b⟩)
            · exact Or.inl h
            · exact Or.inr ⟨by omega, by omega⟩
          · rintro (h | ⟨a, b⟩)
            · exact Or.inl h
            · exact Or.inr ⟨by omega, by omega⟩

theorem tableAfter_get_cons (sz : Nat) (t : externRefManager) (i : Nat) (cs : List Call) :
    tableAfter sz t (Call.get i :: cs) = tableAfter sz t cs := rfl

theorem tableAfter_del_cons (sz : Nat) (t : externRefManager) (i : Nat) (cs : List Call) :
    tableAfter sz t (Call.del i :: cs) = tableAfter sz (t.del i) cs :=
  runCalls_fst sz cs _ _ _

theorem tableAfter_append (sz : Nat) (c1 c2 : List Call) (t : externRefManager) :
    tableAfter sz t (c1 ++ c2) = tableAfter sz (tableAfter sz t c1) c2 := by
  induction c1 generalizing t with
  | nil => rfl
  | cons c cs ih =>
    cases c with
    | add p => rw [List.cons_append, tableAfter_add_cons, tableAfter_add_cons, ih]
    | get i => rw [List.cons_append, tableAfter_get_cons, tableAfter_get_cons, ih]
    | del i => rw [List.cons_append, tableAfter_del_cons, tableAfter_del_cons, ih]

theorem add_gc (sz : Nat) (t : externRefManager) (p : GoValue) : (t.add sz p).2.gc = t.gc := by
  unfold externRefManager.add
  split <;> simp

theorem add_keeps_key (sz : Nat) (t : externRefManager) (p : GoValue) (k : Nat)
    (hk : (t.ref k).isSome = true) : ((t.add sz p).2.ref k).isSome = true := by
  by_cases h : k = (t.add sz p).1
  · rw [h, add_ref_self]; rfl
  · rw [add_ref_of_ne sz t p k h]; exact hk

theorem adds_keep_key (sz : Nat) (ps : List GoValue) (t : externRefManager) (k : Nat)
    (hk : (t.ref k).isSome = true) :
    ((tableAfter sz t (ps.map Call.add)).ref k).isSome = true := by
  induction ps generalizing t with
  | nil => exact hk
  | cons p ps ih =>
    rw [List.map_cons, tableAfter_add_cons]
    exact ih _ (add_keeps_key sz t p k hk)

theorem gc_nil_of_tableAfter (sz : Nat) (calls : List Call) (t : externRefManager)
    (h : (tableAfter sz t calls).gc = []) :
    t.gc = [] ∧ ∃ ps : List GoValue, tableAfter sz t calls = tableAfter sz t (ps.map Call.add) := by
  induction calls generalizing t with
  | nil => exact ⟨h, [], rfl⟩
  | cons c cs ih =>
    cases c with
    | add p =>
      rw [tableAfter_add_cons] at h
      obtain ⟨h1, ps, h2⟩ := ih _ h
      rw [add_gc] at h1
      exact ⟨h1, p :: ps, by rw [tableAfter_add_cons, List.map_cons, tableAfter_add_cons, h2]⟩
    | get i =>
      rw [tableAfter_get_cons] at h
      obtain ⟨h1, ps, h2⟩ := ih _ h
      exact ⟨h1, ps, by rw [tableAfter_get_cons, h2]⟩
    | del i =>
      rw [tableAfter_del_cons] at h
      obtain ⟨h1, _⟩ := ih _ h
      have : (t.del i).gc = t.gc ++ [i] := rfl
      rw [this] at h1
      exact absurd h1 (by simp)

theorem adds_length_lt (sz : Nat) (ps : List GoValue) (hsz : 0 < sz)
    (hfit : (tableAfter sz externRefMgr (ps.map Call.add)).lenFits sz) :
    ps.length < 2 ^ (8 * sz - 1) := by
  obtain ⟨keys, hkeys, hlen⟩ := hfit
  have hW : 2 ^ (8 * sz) = 2 * 2 ^ (8 * sz - 1) := by
    have : 8 * sz = (8 * sz - 1) + 1 := by omega
    rw [this, pow_succ, Nat.add_sub_cancel]
    ring
  have hH : 2 ≤ 2 ^ (8 * sz - 1) := by
    have : 1 ≤ 8 * sz - 1 := by omega
    calc 2 = 2 ^ 1 := rfl
      _ ≤ 2 ^ (8 * sz - 1) := Nat.pow_le_pow_right (by decide) this
  have hidx : externRefMgr.idx = 1 := rfl
  have hsplit : ps = ps.take (2 ^ (8 * sz) - 1) ++ ps.drop (2 ^ (8 * sz) - 1) :=
    (List.take_append_drop _ ps).symm
  have hm : (ps.take (2 ^ (8 * sz) - 1)).length = min (2 ^ (8 * sz) - 1) ps.length :=
    List.length_take _ _
  obtain ⟨_, _, _, r4⟩ := adds_from_fresh sz (ps.take (2 ^ (8 * sz) - 1)) externRefMgr rfl
    (by rw [hidx]; omega) (by rw [hidx, hm]; omega)
  rw [hidx, hm] at r4
  have hsub : List.range' 1 (min (2 ^ (8 * sz) - 1) ps.length) ⊆ keys := by
    intro k hk
    rw [List.mem_range'_1] at hk
    apply hkeys
    rw [hsplit, List.map_append, tableAfter_append]
    exact adds_keep_key sz _ _ k ((r4 k).mpr (Or.inr ⟨hk.1, by omega⟩))
  have hle : min (2 ^ (8 * sz) - 1) ps.length ≤ keys.length := by
    have := (List.subperm_of_subset (List.nodup_range' 1 _) hsub).length_le
    rwa [List.length_range'] at this
  omega

/-- C17: fresh handles are issued sequentially.  On every table reached from
the initial table whose free list is empty, `add` returns the current counter
value and increases the counter by exactly one; and from the initial table `n`
consecutive `add` calls return 1, 2, ..., `n` in order, pairwise distinct and
non-zero, and leave exactly the keys 1, ..., `n` in the mapping.  The tables are
those a Go program can hold: `uint` has 4 or 8 bytes and the mapping has an
`int` number of keys. -/
theorem fresh_handles_sequential (sz : Nat) (calls : List Call) (p : GoValue)
    (ps : List GoValue) (hsz : sz = 4 ∨ sz = 8)
    (hgc : (tableAfter sz externRefMgr calls).gc = [])
    (hfit : (tableAfter sz externRefMgr calls).lenFits sz)
    (hfits : (tableAfter sz externRefMgr (ps.map Call.add)).lenFits sz) :
    ((tableAfter sz externRefMgr calls).add sz p).1 = (tableAfter sz externRefMgr calls).idx
    ∧ ((tableAfter sz externRefMgr calls).add sz p).2.idx
        = (tableAfter sz externRefMgr calls).idx + 1
    ∧ addResults sz externRefMgr (ps.map Call.add) = List.range' 1 ps.length
    ∧ (addResults sz externRefMgr (ps.map Call.add)).Nodup
    ∧ 0 ∉ addResults sz externRefMgr (ps.map Call.add)
    ∧ ∀ k, ((tableAfter sz externRefMgr (ps.map Call.add)).ref k).isSome = true
        ↔ (1 ≤ k ∧ k ≤ ps.length) := by
  have hpos : 0 < sz := by rcases hsz with h | h <;> omega
  have hW : 2 ^ (8 * sz) = 2 * 2 ^ (8 * sz - 1) := by
    have : 8 * sz = (8 * sz - 1) + 1 := by omega
    rw [this, pow_succ, Nat.add_sub_cancel]
    ring
  have hH : 2 ≤ 2 ^ (8 * sz - 1) := by
    have : 1 ≤ 8 * sz - 1 := by omega
    calc 2 = 2 ^ 1 := rfl
      _ ≤ 2 ^ (8 * sz - 1) := Nat.pow_le_pow_right (by decide) this
  have hidx1 : externRefMgr.idx = 1 := rfl
  -- the table reached: no `del` was called, so it is the table after some `add` calls
  obtain ⟨_, qs, hqs⟩ := gc_nil_of_tableAfter sz calls externRefMgr hgc
  rw [hqs] at hfit ⊢
  have hq := adds_length_lt sz qs hpos hfit
  obtain ⟨_, q2, q3, _⟩ := adds_from_fresh sz qs externRefMgr rfl
    (by rw [hidx1]; omega) (by rw [hidx1]; omega)
  rw [hidx1, Nat.mod_eq_of_lt (by omega)] at q3
  obtain ⟨a1, a2, _, _⟩ := add_of_gc_nil sz (tableAfter sz externRefMgr (qs.map Call.add)) p q2
  -- the consecutive calls
  have hn := adds_length_lt sz ps hpos hfits
  obtain ⟨r1, _, _, r4⟩ := adds_from_fresh sz ps externRefMgr rfl
    (by rw [hidx1]; omega) (by rw [hidx1]; omega)
  rw [hidx1] at r1 r4
  refine ⟨a1, ?_, r1, ?_, ?_, ?_⟩
  · rw [a2, Nat.mod_eq_of_lt (by rw [q3]; omega)]
  · rw [r1]; exact List.nodup_range' 1 ps.length
  · rw [r1, List.mem_range'_1]; omega
  · intro k
    rw [r4 k]
    have hnone : (externRefMgr.ref k).isSome = false := rfl
    rw [hnone]
    constructor
    · rintro (h | ⟨a, b⟩)
      · cases h
      · exact ⟨a, by omega⟩
    · rintro ⟨a, b⟩
      exact Or.inr ⟨a, by omega⟩

theorem lenFits_example_calls :
    (tableAfter 8 externRefMgr
      [Call.add (.string "a"), Call.get 1, Call.add (.string "b")]).lenFits 8 := by
  refine ⟨[1, 2], ?_, by decide⟩
  intro k hk
  by_cases h2 : k = 2
  · simp [h2]
  by_cases h1 : k = 1
  · simp [h1]
  · exfalso
    have hnone : (tableAfter 8 externRefMgr
        [Call.add (.string "a"), Call.get 1, Call.add (.string "b")]).ref k = none := by
      simp [tableAfter, runCalls, callStep, externRefManager.add, externRefMgr, mapSet, h1, h2]
    rw [hnone] at hk
    cases hk

theorem lenFits_example_adds :
    (tableAfter 8 externRefMgr
      ([GoValue.string "a", GoValue.string "b", GoValue.string "c"].map Call.add)).lenFits 8 := by
  refine ⟨[1, 2, 3], ?_, by decide⟩
  intro k hk
  obtain ⟨_, _, _, r4⟩ := adds_from_fresh 8
    [GoValue.string "a", GoValue.string "b", GoValue.string "c"] externRefMgr rfl
    (by decide) (by decide)
  rcases (r4 k).mp hk with h | ⟨h1, h2⟩
  · cases h
  · have e1 : externRefMgr.idx = 1 := rfl
    rw [e1] at h1 h2
    simp only [List.length_cons, List.length_nil] at h2
    have : k = 1 ∨ k = 2 ∨ k = 3 := by omega
    rcases this with h | h | h <;> simp [h]

/-- C17 on a 64-bit platform: on the table reached by `add("a")`, `get(1)`,
`add("b")`, whose free list is empty, `add` returns the counter 3 and leaves it
at 4; and three consecutive `add` calls from the initial table return 1, 2, 3. -/
theorem fresh_handles_sequential_witness :
    (tableAfter 8 externRefMgr
        [Call.add (.string "a"), Call.get 1, Call.add (.string "b")]).gc = []
    ∧ (tableAfter 8 externRefMgr
        [Call.add (.string "a"), Call.get 1, Call.add (.string "b")]).idx = 3
    ∧ ((tableAfter 8 externRefMgr
        [Call.add (.string "a"), Call.get 1, Call.add (.string "b")]).add 8 (.string "c")).1
        = (tableAfter 8 externRefMgr
            [Call.add (.string "a"), Call.get 1, Call.add (.string "b")]).idx
    ∧ ((tableAfter 8 externRefMgr
        [Call.add (.string "a"), Call.get 1, Call.add (.string "b")]).add 8 (.string "c")).2.idx
        = (tableAfter 8 externRefMgr
            [Call.add (.string "a"), Call.get 1, Call.add (.string "b")]).idx + 1
    ∧ addResults 8 externRefMgr
        ([GoValue.string "a", GoValue.string "b", GoValue.string "c"].map Call.add)
        = List.range' 1 [GoValue.string "a", GoValue.string "b", GoValue.string "c"].length
    ∧ List.range' 1 [GoValue.string "a", GoValue.string "b", GoValue.string "c"].length
        = [1, 2, 3] :=
  ⟨rfl, rfl,
    (fresh_handles_sequential 8 [Call.add (.string "a"), Call.get 1, Call.add (.string "b")]
      (.string "c") [GoValue.string "a", GoValue.string "b", GoValue.string "c"] (Or.inr rfl)
      rfl lenFits_example_calls lenFits_example_adds).1,
    (fresh_handles_sequential 8 [Call.add (.string "a"), Call.get 1, Call.add (.string "b")]
      (.string "c") [GoValue.string "a", GoValue.string "b", GoValue.string "c"] (Or.inr rfl)
      rfl lenFits_example_calls lenFits_example_adds).2.1,
    (fresh_handles_sequential 8 [Call.add (.string "a"), Call.get 1, Call.add (.string "b")]
      (.string "c") [GoValue.string "a", GoValue.string "b", GoValue.string "c"] (Or.inr rfl)
      rfl lenFits_example_calls lenFits_example_adds).2.2.1,
    by decide⟩

/-! ## Batch decode -/

theorem fromSSVMValue_error_msg (sz : Nat) (mgr : externRefManager) (v : SSVM_Value) (t : Nat)
    (e : String) (h : fromSSVMValue sz mgr v t = .error e) :
    e = "Wrong argument of fromSSVMValue()" := by
  by_cases ht : t = SSVM_ValType_I32 ∨ t = SSVM_ValType_I64 ∨ t = SSVM_ValType_F32
      ∨ t = SSVM_ValType_F64 ∨ t = SSVM_ValType_V128 ∨ t = SSVM_ValType_FuncRef
      ∨ t = SSVM_ValType_ExternRef
  · obtain ⟨g, hg⟩ := fromSSVMValue_isOk_of_tag sz mgr v t ht
    rw [hg] at h
    cases h
  · rw [fromSSVMValue_error_of_not_tag sz mgr v t ht] at h
    injection h with h
    exact h.symm

theorem loop_cons_ok (sz : Nat) (mgr : externRefManager) (types : List Nat) (i : Nat)
    (c : SSVM_Value) (rest : List SSVM_Value) (vals out : List GoValue)
    (h : fromSSVMValueSlide.loop sz mgr types i (c :: rest) vals = .ok out) :
    ∃ t v, types[i]? = some t ∧ fromSSVMValue sz mgr c t = .ok v
      ∧ fromSSVMValueSlide.loop sz mgr types (i + 1) rest (vals.set i v) = .ok out := by
  unfold fromSSVMValueSlide.loop at h
  rw [List.get?_eq_getElem?] at h
  cases ht : types[i]? with
  | none => rw [ht] at h; cases h
  | some t =>
    rw [ht] at h
    cases hv : fromSSVMValue sz mgr c t with
    | error e => simp only [hv] at h; cases h
    | ok v =>
      simp only [hv] at h
      exact ⟨t, v, rfl, hv, h⟩

theorem loop_spec (sz : Nat) (mgr : externRefManager) (types : List Nat)
    (cvals : List SSVM_Value) (i : Nat) (vals out : List GoValue)
    (hlen : vals.length = types.length)
    (h : fromSSVMValueSlide.loop sz mgr types i cvals vals = .ok out) :
    out.length = types.length
    ∧ (∀ j, j < cvals.length → ∃ c t v, cvals[j]? = some c ∧ types[i + j]? = some t
        ∧ fromSSVMValue sz mgr c t = .ok v ∧ out[i + j]? = some v)
    ∧ (∀ k, k < i → out[k]? = vals[k]?)
    ∧ (∀ k, i + cvals.length ≤ k → out[k]? = vals[k]?) := by
  induction cvals generalizing i vals with
  | nil =>
    unfold fromSSVMValueSlide.loop at h
    cases h
    exact ⟨hlen, fun j hj => absurd hj (Nat.not_lt_zero j), fun _ _ => rfl, fun _ _ => rfl⟩
  | cons c rest ih =>
    obtain ⟨t, v, ht, hv, hloop⟩ := loop_cons_ok sz mgr types i c rest vals out h
    have hi : i < types.length := by
      by_contra hcon
      rw [List.getElem?_eq_none (Nat.le_of_not_lt hcon)] at ht
      cases ht
    obtain ⟨r1, r2, r3, r4⟩ := ih (i + 1) (vals.set i v) (by rw [List.length_set]; exact hlen)
      hloop
    refine ⟨r1, ?_, ?_, ?_⟩
    · intro j hj
      cases j with
      | zero =>
        refine ⟨c, t, v, List.getElem?_cons_zero, ht, hv, ?_⟩
        rw [Nat.add_zero, r3 i (Nat.lt_succ_self i)]
        rw [List.getElem?_set_self (by rw [hlen]; exact hi)]
      | succ j1 =>
        obtain ⟨c1, t1, v1, e1, e2, e3, e4⟩ := r2 j1 (by simpa using hj)
        have hidx : i + (j1 + 1) = i + 1 + j1 := by omega
        refine ⟨c1, t1, v1, ?_, ?_, e3, ?_⟩
        · simpa using e1
        · rw [hidx]; exact e2
        · rw [hidx]; exact e4
    · intro k hk
      rw [r3 k (by omega), List.getElem?_set_ne (by omega)]
    · intro k hk
      simp only [List.length_cons] at hk
      rw [r4 k (by omega), List.getElem?_set_ne (by omega)]

theorem loop_no_index_panic (sz : Nat) (mgr : externRefManager) (types : List Nat)
    (cvals : List SSVM_Value) (i : Nat) (vals : List GoValue)
    (hle : i + cvals.length ≤ types.length) :
    (∃ out, fromSSVMValueSlide.loop sz mgr types i cvals vals = .ok out)
    ∨ fromSSVMValueSlide.loop sz mgr types i cvals vals
        = .error "Wrong argument of fromSSVMValue()" := by
  induction cvals generalizing i vals with
  | nil => exact Or.inl ⟨vals, by unfold fromSSVMValueSlide.loop; rfl⟩
  | cons c rest ih =>
    simp only [List.length_cons] at hle
    have hi : i < types.length := by omega
    unfold fromSSVMValueSlide.loop
    rw [List.get?_eq_getElem?, List.getElem?_eq_getElem hi]
    cases hv : fromSSVMValue sz mgr c types[i] with
    | error e =>
      have := fromSSVMValue_error_msg sz mgr c _ e hv
      subst this
      right
      simp only [hv]
    | ok v =>
      simp only [hv]
      exact ih (i + 1) (vals.set i v) (by omega)

/-- C19 fails as stated when `types` is empty and `cvals` is not: the call
returns the empty slice, so the result has no entry 0 although `cvals` has
one. -/
theorem batch_decode_empty_types :
    fromSSVMValueSlide 8 externRefMgr [SSVM_ValueGenI32 5] [] = .ok []
    ∧ 0 < [SSVM_ValueGenI32 5].length
    ∧ ([] : List GoValue)[0]? = none :=
  ⟨rfl, by decide, rfl⟩

/-- C19 as amended: for every list `cvals` of native values and list `types` of
tags, whenever `fromSSVMValueSlide(cvals, types)` returns, its result has
exactly `len(types)` entries; when `types` is not empty, entry `j` is
`fromSSVMValue(cvals[j], types[j])` for every `j < len(cvals)`, and when `types`
is empty the result is empty; for lists of equal length it is the element-wise
decode.  When `len(cvals) <= len(types)` the call never indexes `types` out of
range: it returns, or it panics with the panic of `fromSSVMValue`. -/
theorem batch_decode_arity (sz : Nat) (mgr : externRefManager) (cvals : List SSVM_Value)
    (types : List Nat) :
    (∀ vals, fromSSVMValueSlide sz mgr cvals types = .ok vals →
      vals.length = types.length
      ∧ (types ≠ [] → ∀ j, j < cvals.length → ∃ c t v, cvals[j]? = some c
          ∧ types[j]? = some t ∧ fromSSVMValue sz mgr c t = .ok v ∧ vals[j]? = some v)
      ∧ (types = [] → vals = [])
      ∧ (cvals.length = types.length → ∀ j, j < cvals.length → ∃ c t v, cvals[j]? = some c
          ∧ types[j]? = some t ∧ fromSSVMValue sz mgr c t = .ok v ∧ vals[j]? = some v))
    ∧ (cvals.length ≤ types.length →
        (∃ vals, fromSSVMValueSlide sz mgr cvals types = .ok vals)
        ∨ fromSSVMValueSlide sz mgr cvals types
            = .error "Wrong argument of fromSSVMValue()") := by
  by_cases hpos : types.length > 0
  · have hne : types ≠ [] := by
      intro h0; rw [h0] at hpos; exact absurd hpos (by decide)
    have hdef : fromSSVMValueSlide sz mgr cvals types
        = fromSSVMValueSlide.loop sz mgr types 0 cvals
            (List.replicate types.length GoValue.nil) := by
      unfold fromSSVMValueSlide
      rw [if_pos hpos]
    rw [hdef]
    constructor
    · intro vals h
      obtain ⟨r1, r2, _, _⟩ := loop_spec sz mgr types cvals 0 _ vals
        (List.length_replicate _ _) h
      have r2a : ∀ j, j < cvals.length → ∃ c t v, cvals[j]? = some c
          ∧ types[j]? = some t ∧ fromSSVMValue sz mgr c t = .ok v ∧ vals[j]? = some v := by
        intro j hj
        obtain ⟨c, t, v, e1, e2, e3, e4⟩ := r2 j hj
        rw [Nat.zero_add] at e2 e4
        exact ⟨c, t, v, e1, e2, e3, e4⟩
      exact ⟨r1, fun _ => r2a, fun h0 => absurd h0 hne, fun _ => r2a⟩
    · intro hle
      exact loop_no_index_panic sz mgr types cvals 0 _ (by omega)
  · have h0 : types = [] := by
      cases types with
      | nil => rfl
      | cons a b => exact absurd (Nat.succ_pos _) hpos
    subst h0
    have hdef : fromSSVMValueSlide sz mgr cvals [] = .ok [] := rfl
    rw [hdef]
    constructor
    · intro vals h
      cases h
      refine ⟨rfl, fun h1 => absurd rfl h1, fun _ => rfl, ?_⟩
      intro hlen j hj
      rw [hlen] at hj
      exact absurd hj (Nat.not_lt_zero j)
    · intro _
      exact Or.inl ⟨[], rfl⟩

/-- C19 as amended, at two native values and the tags `I32` and `I64`. -/
theorem batch_decode_arity_witness :
    fromSSVMValueSlide 8 externRefMgr [SSVM_ValueGenI32 5, SSVM_ValueGenI64 (-7)]
        [SSVM_ValType_I32, SSVM_ValType_I64]
      = .ok [GoValue.int32 5, GoValue.int64 (-7)]
    ∧ [GoValue.int32 5, GoValue.int64 (-7)].length
        = [SSVM_ValType_I32, SSVM_ValType_I64].length :=
  ⟨rfl,
    ((batch_decode_arity 8 externRefMgr [SSVM_ValueGenI32 5, SSVM_ValueGenI64 (-7)]
      [SSVM_ValType_I32, SSVM_ValType_I64]).1 [GoValue.int32 5, GoValue.int64 (-7)]
      (by rfl)).1⟩

end ssvm
